import Mathlib

/-!
Verification of the ID-manager subsystem of the `upenn-cis198/lecture8`
repository (`src/id_manager.rs`) against its natural-language specification.

The Rust code is shallowly embedded as follows.

* `usize` is modelled as `Nat`; the counter increment `self.0 += 1` in
  `ID::step` overflows at `2 ^ 64`.  Rust integer overflow is a program
  error: with overflow checks enabled (the default debug profile) the
  process aborts, which we model by `ID.step` returning `none`; with
  checks disabled (the default release profile) the value wraps, which is
  modelled separately by `ID.stepWrapping`.
* `HashMap` is modelled by an association list together with a key
  predicate.  `alInsert` mirrors `HashMap::insert`: when an equal key is
  present the value is updated, the old key is kept, and the displaced
  value is returned.  `alRemove` mirrors `HashMap::remove`.
* `Rc<T>` is modelled explicitly: a `Heap` maps addresses to stored values
  and strong reference counts.  `Rc::new` is `Heap.alloc`, `Rc::clone` is
  `Heap.incr`, and dropping a handle is `Heap.decr`, which deallocates
  the cell when the count reaches zero.  The maps of `IDManager3` store
  addresses; key comparison of `HashMap<Rc<T>, ID>` dereferences through
  the heap, exactly as the `Borrow`/`Hash`/`Eq` instances of `Rc<T>` do.
* `IDManager1` stores plain values; `item.clone()` for a hashable value
  type yields an equal value and is modelled by reusing the value.
* `eprintln!` output is returned as a list of emitted diagnostic lines.
-/

set_option autoImplicit false

namespace Lecture8

/-- Number of values of the 64-bit `usize` used by `ID`. -/
def USIZE : Nat := 2 ^ 64

/-- The `ID(usize)` newtype of `id_manager.rs`. -/
structure ID where
  val : Nat
deriving DecidableEq, Repr

/-- `Default` for `ID`: the zero ID. -/
def ID.default : ID := ⟨0⟩

/-- `ID::step` (`self.0 += 1`) under the checked-overflow semantics of the
default debug profile: the successor, or `none` when the addition would
overflow `usize` and the process aborts. -/
def ID.step (i : ID) : Option ID :=
  if i.val + 1 < USIZE then some ⟨i.val + 1⟩ else none

/-- `ID::step` (`self.0 += 1`) under the wrapping semantics of the default
release profile (overflow checks disabled): the counter silently wraps. -/
def ID.stepWrapping (i : ID) : ID :=
  ⟨(i.val + 1) % USIZE⟩

section AssocList

variable {K V : Type}

/-- `HashMap::get`: the value of the first entry whose key satisfies `p`. -/
def alLookup (p : K → Bool) : List (K × V) → Option V
  | [] => none
  | (k, v) :: rest => if p k then some v else alLookup p rest

/-- The key of the first entry whose key satisfies `p` (the stored key,
which for `HashMap<Rc<T>, ID>` is the stored `Rc` handle). -/
def alFindKey (p : K → Bool) : List (K × V) → Option K
  | [] => none
  | (k, _) :: rest => if p k then some k else alFindKey p rest

/-- `HashMap::insert`: if an entry with an equal key is present, its value
is updated, the old key is kept and the displaced value is returned;
otherwise the new entry is appended. -/
def alInsert (p : K → Bool) (k : K) (v : V) : List (K × V) → Option V × List (K × V)
  | [] => (none, [(k, v)])
  | (k₀, v₀) :: rest =>
      if p k₀ then (some v₀, (k₀, v) :: rest)
      else
        let r := alInsert p k v rest
        (r.1, (k₀, v₀) :: r.2)

/-- `HashMap::remove`: removes the first entry whose key satisfies `p` and
returns it. -/
def alRemove (p : K → Bool) : List (K × V) → Option (K × V) × List (K × V)
  | [] => (none, [])
  | (k₀, v₀) :: rest =>
      if p k₀ then (some (k₀, v₀), rest)
      else
        let r := alRemove p rest
        (r.1, (k₀, v₀) :: r.2)

end AssocList

/-- The Rust heap restricted to the `Rc` cells owned by one manager: each
cell is an address together with the stored value and its strong count.
`fresh` is the next never-used address. -/
structure Heap (T : Type) where
  cells : List (Nat × T × Nat)
  fresh : Nat
deriving DecidableEq, Repr

namespace Heap

variable {T : Type}

/-- Dereference: the value stored at address `a`, if the cell is live. -/
def get (h : Heap T) (a : Nat) : Option T :=
  (alLookup (fun b => decide (b = a)) h.cells).map Prod.fst

/-- The strong reference count of the cell at address `a`. -/
def rc (h : Heap T) (a : Nat) : Option Nat :=
  (alLookup (fun b => decide (b = a)) h.cells).map Prod.snd

/-- `Rc::new`: allocate a fresh cell with strong count 1. -/
def alloc (h : Heap T) (x : T) : Nat × Heap T :=
  (h.fresh, ⟨(h.fresh, x, 1) :: h.cells, h.fresh + 1⟩)

/-- `Rc::clone`: increment the strong count of the cell at `a`. -/
def incr (h : Heap T) (a : Nat) : Heap T :=
  ⟨h.cells.map (fun c => if c.1 = a then (c.1, c.2.1, c.2.2 + 1) else c), h.fresh⟩

/-- Decrement pass over the cells for dropping one handle on `a`:
the first cell at `a` loses one reference and is deallocated when the
count reaches zero. -/
def decrCells (a : Nat) : List (Nat × T × Nat) → List (Nat × T × Nat)
  | [] => []
  | c :: rest =>
      if c.1 = a then (if c.2.2 ≤ 1 then rest else (c.1, c.2.1, c.2.2 - 1) :: rest)
      else c :: decrCells a rest

/-- Drop of one `Rc` handle on address `a`. -/
def decr (h : Heap T) (a : Nat) : Heap T :=
  ⟨decrCells a h.cells, h.fresh⟩

/-- Drop of an optional `Rc` handle (a displaced or removed map entry). -/
def dropOpt (h : Heap T) : Option Nat → Heap T
  | none => h
  | some a => h.decr a

end Heap

/-- `IDManager3<T>`: the reference-counted third attempt.  The two maps
store heap addresses of `Rc` cells; `next_id` is the generator state. -/
structure IDManager3 (T : Type) where
  next_id : ID
  id_to_item : List (ID × Nat)
  item_to_id : List (Nat × ID)
  heap : Heap T
deriving DecidableEq, Repr

namespace IDManager3

variable {T : Type} [DecidableEq T]

/-- `IDManager3::new` / `Default`: empty maps, zero counter. -/
def new (T : Type) : IDManager3 T :=
  ⟨ID.default, [], [], ⟨[], 0⟩⟩

/-- `IDManager3::get_id`: look up `item` in `item_to_id`.  The
`HashMap<Rc<T>, ID>` compares keys by the pointed-to value. -/
def get_id (m : IDManager3 T) (item : T) : Option ID :=
  alLookup (fun a => decide (m.heap.get a = some item)) m.item_to_id

/-- `IDManager3::get_item`: look up `id` in `id_to_item` and dereference
the stored `Rc` handle. -/
def get_item (m : IDManager3 T) (i : ID) : Option T :=
  (alLookup (fun j => decide (j = i)) m.id_to_item).bind m.heap.get

/-- `IDManager3::insert`: allocate one `Rc` cell for `item`, store a clone
of the handle in `id_to_item` and the handle itself in `item_to_id`, then
step the counter.  A displaced forward value is dropped; if `item_to_id`
already has an equal key, the old key is kept and the new handle is
dropped.  `none` models the abort of the counter-overflow check. -/
def insert (m : IDManager3 T) (item : T) : Option (ID × IDManager3 T) :=
  let id := m.next_id
  let alloc := m.heap.alloc item
  let a := alloc.1
  let h₁ := alloc.2.incr a
  let fwd := alInsert (fun j => decide (j = id)) id a m.id_to_item
  let h₂ := h₁.dropOpt fwd.1
  let rev := alInsert (fun b => decide (h₂.get b = some item)) a id m.item_to_id
  let h₃ := if rev.1.isSome then h₂.decr a else h₂
  match id.step with
  | some nid => some (id, ⟨nid, fwd.2, rev.2, h₃⟩)
  | none => none

/-- `IDManager3::delete`: when `item` is present, remove its entry from
both maps, dropping the two `Rc` handles, and return `true` with no
diagnostic; otherwise return `false` and the `eprintln!` warning line. -/
def delete (m : IDManager3 T) (item : T) : Bool × IDManager3 T × List String :=
  match m.get_id item with
  | some id =>
      let fwd := alRemove (fun j => decide (j = id)) m.id_to_item
      let h₁ := m.heap.dropOpt (fwd.1.map Prod.snd)
      let rev := alRemove (fun b => decide (h₁.get b = some item)) m.item_to_id
      let h₂ := h₁.dropOpt (rev.1.map Prod.fst)
      (true, ⟨m.next_id, fwd.2, rev.2, h₂⟩, [])
  | none => (false, m, ["Warning: tried to delete nonexistent item"])

/-- The `Rc` handle stored as the forward-index entry for `i`
(the address of its cell). -/
def fwdAddr (m : IDManager3 T) (i : ID) : Option Nat :=
  alLookup (fun j => decide (j = i)) m.id_to_item

/-- The `Rc` handle stored as the reverse-index key for `item`
(the address of its cell). -/
def revAddr (m : IDManager3 T) (item : T) : Option Nat :=
  alFindKey (fun b => decide (m.heap.get b = some item)) m.item_to_id

end IDManager3

/-- `IDManager1<T>`: the first attempt, which clones the value into the
forward index and moves it into the reverse index. -/
structure IDManager1 (T : Type) where
  next_id : ID
  id_to_item : List (ID × T)
  item_to_id : List (T × ID)
deriving DecidableEq, Repr

namespace IDManager1

variable {T : Type} [DecidableEq T]

/-- `IDManager1::new` / `Default`. -/
def new (T : Type) : IDManager1 T :=
  ⟨ID.default, [], []⟩

/-- `IDManager1::get_id`. -/
def get_id (m : IDManager1 T) (item : T) : Option ID :=
  alLookup (fun x => decide (x = item)) m.item_to_id

/-- `IDManager1::get_item`. -/
def get_item (m : IDManager1 T) (i : ID) : Option T :=
  alLookup (fun j => decide (j = i)) m.id_to_item

/-- `IDManager1::insert`: store `item.clone()` in `id_to_item` and `item`
in `item_to_id`, then step the counter (checked). -/
def insert (m : IDManager1 T) (item : T) : Option (ID × IDManager1 T) :=
  let id := m.next_id
  let fwd := alInsert (fun j => decide (j = id)) id item m.id_to_item
  let rev := alInsert (fun x => decide (x = item)) item id m.item_to_id
  match id.step with
  | some nid => some (id, ⟨nid, fwd.2, rev.2⟩)
  | none => none

/-- `IDManager1::delete`. -/
def delete (m : IDManager1 T) (item : T) : Bool × IDManager1 T × List String :=
  match m.get_id item with
  | some id =>
      let fwd := alRemove (fun j => decide (j = id)) m.id_to_item
      let rev := alRemove (fun x => decide (x = item)) m.item_to_id
      (true, ⟨m.next_id, fwd.2, rev.2⟩, [])
  | none => (false, m, ["Warning: tried to delete nonexistent item"])

end IDManager1

/-- One call of the public API. -/
inductive Op (T : Type) where
  | insert (x : T)
  | delete (x : T)
  | get_id (x : T)
  | get_item (i : ID)
deriving DecidableEq, Repr

/-- The observable result of one call (diagnostic lines included). -/
inductive Out (T : Type) where
  | issued (i : ID)
  | removed (ok : Bool) (warnings : List String)
  | foundId (o : Option ID)
  | foundItem (o : Option T)
deriving DecidableEq, Repr

namespace IDManager3

variable {T : Type} [DecidableEq T]

/-- Execute one call on `IDManager3`; `none` models an abort. -/
def runOp (m : IDManager3 T) : Op T → Option (Out T × IDManager3 T)
  | .insert x => (m.insert x).map (fun p => (.issued p.1, p.2))
  | .delete x =>
      let r := m.delete x
      some (.removed r.1 r.2.2, r.2.1)
  | .get_id x => some (.foundId (m.get_id x), m)
  | .get_item i => some (.foundItem (m.get_item i), m)

/-- Execute a call sequence on `IDManager3`, collecting the outputs. -/
def run (m : IDManager3 T) : List (Op T) → Option (List (Out T) × IDManager3 T)
  | [] => some ([], m)
  | op :: rest =>
      match m.runOp op with
      | none => none
      | some (o, m₁) => (m₁.run rest).map (fun p => (o :: p.1, p.2))

/-- A call sequence is safe when every `insert` in it is of a value with
no equal value present at that point (no re-insertion). -/
def safeOps (m : IDManager3 T) : List (Op T) → Bool
  | [] => true
  | op :: rest =>
      (match op with
       | .insert x => decide (m.get_id x = none)
       | _ => true) &&
      (match m.runOp op with
       | some r => r.2.safeOps rest
       | none => true)

end IDManager3

namespace IDManager1

variable {T : Type} [DecidableEq T]

/-- Execute one call on `IDManager1`; `none` models an abort. -/
def runOp (m : IDManager1 T) : Op T → Option (Out T × IDManager1 T)
  | .insert x => (m.insert x).map (fun p => (.issued p.1, p.2))
  | .delete x =>
      let r := m.delete x
      some (.removed r.1 r.2.2, r.2.1)
  | .get_id x => some (.foundId (m.get_id x), m)
  | .get_item i => some (.foundItem (m.get_item i), m)

/-- Execute a call sequence on `IDManager1`, collecting the outputs. -/
def run (m : IDManager1 T) : List (Op T) → Option (List (Out T) × IDManager1 T)
  | [] => some ([], m)
  | op :: rest =>
      match m.runOp op with
      | none => none
      | some (o, m₁) => (m₁.run rest).map (fun p => (o :: p.1, p.2))

end IDManager1

/-- The strong count of the cell at `a`, read as a number (0 for a dead or
never-allocated address). -/
def Heap.rcD {T : Type} (h : Heap T) (a : Nat) : Nat :=
  (h.rc a).getD 0

/-- Number of `Rc` handles on address `a` held by the two maps: its
occurrences among the forward values plus those among the reverse keys. -/
def occEnt (fwd : List (ID × Nat)) (rev : List (Nat × ID)) (a : Nat) : Nat :=
  (fwd.map Prod.snd).count a + (rev.map Prod.fst).count a

/-- Structural invariant of reachable `IDManager1` states: distinct forward
keys, distinct reverse keys, all stored IDs below the counter, distinct
reverse IDs, and every reverse association present in the forward map. -/
def Inv1 {T : Type} (m : IDManager1 T) : Prop :=
  (m.id_to_item.map Prod.fst).Nodup ∧
  (m.item_to_id.map Prod.fst).Nodup ∧
  (∀ e ∈ m.id_to_item, e.1.val < m.next_id.val) ∧
  (∀ e ∈ m.item_to_id, e.2.val < m.next_id.val) ∧
  (m.item_to_id.map Prod.snd).Nodup ∧
  (∀ e ∈ m.item_to_id, (e.2, e.1) ∈ m.id_to_item)

/-- Heap well-formedness of reachable `IDManager3` states: distinct cell
addresses, all below `fresh`, positive strong counts, and each count equal
to the number of map entries holding a handle on the cell. -/
def HeapWF {T : Type} (m : IDManager3 T) : Prop :=
  (m.heap.cells.map Prod.fst).Nodup ∧
  (∀ c ∈ m.heap.cells, c.1 < m.heap.fresh) ∧
  (∀ c ∈ m.heap.cells, 0 < c.2.2) ∧
  (∀ a, m.heap.rcD a = occEnt m.id_to_item m.item_to_id a)

/-- Forward-map entry correspondence: equal IDs, and the address stored by
`IDManager3` dereferences to the value stored by `IDManager1`. -/
def FwdR {T : Type} (h : Heap T) (e : ID × T) (f : ID × Nat) : Prop :=
  e.1 = f.1 ∧ h.get f.2 = some e.2

/-- Reverse-map entry correspondence: the key address dereferences to the
value key, and the IDs are equal. -/
def RevR {T : Type} (h : Heap T) (e : T × ID) (f : Nat × ID) : Prop :=
  h.get f.1 = some e.1 ∧ e.2 = f.2

/-- Simulation relation: `IDManager1` holds exactly the values that
`IDManager3` reaches through one heap dereference, entrywise and in the
same order, with equal counters. -/
def Rel {T : Type} (m₁ : IDManager1 T) (m₃ : IDManager3 T) : Prop :=
  m₁.next_id = m₃.next_id ∧
  List.Forall₂ (FwdR m₃.heap) m₁.id_to_item m₃.id_to_item ∧
  List.Forall₂ (RevR m₃.heap) m₁.item_to_id m₃.item_to_id

/-- Combined invariant carried along every run. -/
def Good {T : Type} (m₁ : IDManager1 T) (m₃ : IDManager3 T) : Prop :=
  Inv1 m₁ ∧ Rel m₁ m₃ ∧ HeapWF m₃

/-- The bijection property of an `IDManager1` state: the two indexes are
exact inverses of one another. -/
def Bij1 {T : Type} (m : IDManager1 T) : Prop :=
  ∀ (i : ID) (v : T), (i, v) ∈ m.id_to_item ↔ (v, i) ∈ m.item_to_id

/-! ### Association-list lemmas -/

section AssocLemmas

variable {K V : Type} {p : K → Bool}

theorem alLookup_eq_none {l : List (K × V)} :
    alLookup p l = none ↔ ∀ e ∈ l, p e.1 = false := by
  induction l with
  | nil => simp [alLookup]
  | cons e rest ih =>
      obtain ⟨k, v⟩ := e
      by_cases h : p k = true
      · simp [alLookup, h]
      · simp only [Bool.not_eq_true] at h
        simp [alLookup, h, ih]

theorem alLookup_eq_some {l : List (K × V)} {v : V} (h : alLookup p l = some v) :
    ∃ l₁ k l₂, l = l₁ ++ (k, v) :: l₂ ∧ p k = true ∧ ∀ e ∈ l₁, p e.1 = false := by
  induction l with
  | nil => simp [alLookup] at h
  | cons e rest ih =>
      obtain ⟨k₀, v₀⟩ := e
      by_cases hk : p k₀ = true
      · simp only [alLookup, hk, if_true, Option.some.injEq] at h
        exact ⟨[], k₀, rest, by simp [h], hk, by simp⟩
      · simp only [Bool.not_eq_true] at hk
        simp only [alLookup, hk, Bool.false_eq_true, if_false] at h
        obtain ⟨l₁, k, l₂, hl, hp, hfalse⟩ := ih h
        exact ⟨(k₀, v₀) :: l₁, k, l₂, by simp [hl], hp, by
          intro e he
          rcases List.mem_cons.mp he with h1 | h1
          · simp [h1, hk]
          · exact hfalse e h1⟩

theorem alLookup_append_of_forall_false {l₁ l₂ : List (K × V)}
    (h : ∀ e ∈ l₁, p e.1 = false) :
    alLookup p (l₁ ++ l₂) = alLookup p l₂ := by
  induction l₁ with
  | nil => simp
  | cons e rest ih =>
      have he : p e.1 = false := h e (by simp)
      simp only [List.cons_append, alLookup, he, Bool.false_eq_true, if_false]
      exact ih fun f hf => h f (by simp [hf])

theorem alLookup_of_mem_of_nodup {l : List (K × V)} {k : K} {v : V}
    [DecidableEq K]
    (hmem : (k, v) ∈ l) (hnd : (l.map Prod.fst).Nodup) :
    alLookup (fun x => decide (x = k)) l = some v := by
  induction l with
  | nil => simp at hmem
  | cons e rest ih =>
      obtain ⟨k₀, v₀⟩ := e
      simp only [List.map_cons, List.nodup_cons] at hnd
      rcases List.mem_cons.mp hmem with h1 | h1
      · obtain ⟨rfl, rfl⟩ := Prod.mk.injEq .. ▸ h1
        simp [alLookup]
      · have hne : k₀ ≠ k := by
          intro hEq
          exact hnd.1 (hEq ▸ List.mem_map_of_mem Prod.fst h1)
        simp only [alLookup, decide_eq_true_eq, hne, if_false]
        exact ih h1 hnd.2

theorem mem_of_alLookup_eq_some {l : List (K × V)} {k : K} {v : V}
    [DecidableEq K]
    (h : alLookup (fun x => decide (x = k)) l = some v) : (k, v) ∈ l := by
  obtain ⟨l₁, k₀, l₂, hl, hp, -⟩ := alLookup_eq_some h
  have : k₀ = k := by simpa using hp
  subst this
  simp [hl]

theorem alFindKey_eq_none {l : List (K × V)} :
    alFindKey p l = none ↔ ∀ e ∈ l, p e.1 = false := by
  induction l with
  | nil => simp [alFindKey]
  | cons e rest ih =>
      obtain ⟨k, v⟩ := e
      by_cases h : p k = true
      · simp [alFindKey, h]
      · simp only [Bool.not_eq_true] at h
        simp [alFindKey, h, ih]

theorem alInsert_fst {l : List (K × V)} {k : K} {v : V} :
    (alInsert p k v l).1 = alLookup p l := by
  induction l with
  | nil => simp [alInsert, alLookup]
  | cons e rest ih =>
      obtain ⟨k₀, v₀⟩ := e
      by_cases h : p k₀ = true
      · simp [alInsert, alLookup, h]
      · simp only [Bool.not_eq_true] at h
        simp [alInsert, alLookup, h, ih]

theorem alInsert_of_forall_false {l : List (K × V)} {k : K} {v : V}
    (h : ∀ e ∈ l, p e.1 = false) :
    alInsert p k v l = (none, l ++ [(k, v)]) := by
  induction l with
  | nil => simp [alInsert]
  | cons e rest ih =>
      have he : p e.1 = false := h e (by simp)
      have ih2 := ih fun f hf => h f (by simp [hf])
      obtain ⟨k₀, v₀⟩ := e
      simp only [alInsert, he, Bool.false_eq_true, if_false, ih2, List.cons_append]

theorem alInsert_decomp {l₁ l₂ : List (K × V)} {k₀ : K} {v₀ : V} {k : K} {v : V}
    (hfalse : ∀ e ∈ l₁, p e.1 = false) (hp : p k₀ = true) :
    alInsert p k v (l₁ ++ (k₀, v₀) :: l₂) = (some v₀, l₁ ++ (k₀, v) :: l₂) := by
  induction l₁ with
  | nil => simp [alInsert, hp]
  | cons e rest ih =>
      have he : p e.1 = false := hfalse e (by simp)
      have ih2 := ih fun f hf => hfalse f (by simp [hf])
      obtain ⟨ka, va⟩ := e
      simp only [List.cons_append, alInsert, he, Bool.false_eq_true, if_false,
        List.append_eq, ih2]

theorem alRemove_of_forall_false {l : List (K × V)}
    (h : ∀ e ∈ l, p e.1 = false) :
    alRemove p l = (none, l) := by
  induction l with
  | nil => simp [alRemove]
  | cons e rest ih =>
      have he : p e.1 = false := h e (by simp)
      have ih2 := ih fun f hf => h f (by simp [hf])
      obtain ⟨k₀, v₀⟩ := e
      simp only [alRemove, he, Bool.false_eq_true, if_false, ih2]

theorem alRemove_decomp {l₁ l₂ : List (K × V)} {k₀ : K} {v₀ : V}
    (hfalse : ∀ e ∈ l₁, p e.1 = false) (hp : p k₀ = true) :
    alRemove p (l₁ ++ (k₀, v₀) :: l₂) = (some (k₀, v₀), l₁ ++ l₂) := by
  induction l₁ with
  | nil => simp [alRemove, hp]
  | cons e rest ih =>
      have he : p e.1 = false := hfalse e (by simp)
      have ih2 := ih fun f hf => hfalse f (by simp [hf])
      obtain ⟨ka, va⟩ := e
      simp only [List.cons_append, alRemove, he, Bool.false_eq_true, if_false,
        List.append_eq, ih2]

theorem key_unique {l : List (K × V)} {k : K} {v w : V}
    (hnd : (l.map Prod.fst).Nodup) (h1 : (k, v) ∈ l) (h2 : (k, w) ∈ l) : v = w := by
  induction l with
  | nil => simp at h1
  | cons e rest ih =>
      obtain ⟨k₀, v₀⟩ := e
      rw [List.map_cons, List.nodup_cons] at hnd
      rcases List.mem_cons.mp h1 with ha | ha <;> rcases List.mem_cons.mp h2 with hb | hb
      · have hv : v = v₀ := congrArg Prod.snd ha
        have hw : w = v₀ := congrArg Prod.snd hb
        rw [hv, hw]
      · have hk : k = k₀ := congrArg Prod.fst ha
        have hmem : k ∈ rest.map Prod.fst := List.mem_map_of_mem Prod.fst hb
        exact absurd (hk ▸ hmem) hnd.1
      · have hk : k = k₀ := congrArg Prod.fst hb
        have hmem : k ∈ rest.map Prod.fst := List.mem_map_of_mem Prod.fst ha
        exact absurd (hk ▸ hmem) hnd.1
      · exact ih hnd.2 ha hb

end AssocLemmas

/-! ### Relational association-list lemmas (for the simulation) -/

section RelListLemmas

variable {A B : Type} {S₀ : A → B → Prop}

theorem forall₂_decomp_left {l₁ : List A} {e : A} {l₂ : List A} {r : List B}
    (h : List.Forall₂ S₀ (l₁ ++ e :: l₂) r) :
    ∃ r₁ f r₂, r = r₁ ++ f :: r₂ ∧ List.Forall₂ S₀ l₁ r₁ ∧ S₀ e f ∧
      List.Forall₂ S₀ l₂ r₂ := by
  induction l₁ generalizing r with
  | nil =>
      rcases List.forall₂_cons_left_iff.mp h with ⟨f, r₂, hef, hrest, rfl⟩
      exact ⟨[], f, r₂, rfl, List.Forall₂.nil, hef, hrest⟩
  | cons a rest ih =>
      rcases List.forall₂_cons_left_iff.mp h with ⟨b, r', hab, hrest, rfl⟩
      obtain ⟨r₁, f, r₂, rfl, h₁, h₂, h₃⟩ := ih hrest
      exact ⟨b :: r₁, f, r₂, rfl, List.Forall₂.cons hab h₁, h₂, h₃⟩

variable {K₁ V₁ K₂ V₂ : Type} {S : K₁ × V₁ → K₂ × V₂ → Prop}
variable {p : K₁ → Bool} {q : K₂ → Bool}

theorem alLookup_rel (hpq : ∀ a b, S a b → p a.1 = q b.1) {l₁ : List (K₁ × V₁)}
    {l₂ : List (K₂ × V₂)} (h : List.Forall₂ S l₁ l₂) :
    (alLookup p l₁ = none ∧ alLookup q l₂ = none) ∨
    ∃ a b, S a b ∧ p a.1 = true ∧ alLookup p l₁ = some a.2 ∧
      alLookup q l₂ = some b.2 := by
  induction h with
  | nil => exact Or.inl ⟨rfl, rfl⟩
  | cons hab hrest ih =>
      rename_i a b l₁ l₂
      obtain ⟨k₁, v₁⟩ := a
      obtain ⟨k₂, v₂⟩ := b
      have hpq1 := hpq _ _ hab
      by_cases hk : p k₁ = true
      · refine Or.inr ⟨(k₁, v₁), (k₂, v₂), hab, hk, ?_, ?_⟩
        · simp [alLookup, hk]
        · simp only at hpq1
          simp [alLookup, ← hpq1, hk]
      · simp only [Bool.not_eq_true] at hk
        simp only at hpq1
        rcases ih with ⟨h1, h2⟩ | ⟨a', b', hS, hp1, h1, h2⟩
        · exact Or.inl ⟨by simp [alLookup, hk, h1], by simp [alLookup, ← hpq1, hk, h2]⟩
        · exact Or.inr ⟨a', b', hS, hp1, by simp [alLookup, hk, h1],
            by simp [alLookup, ← hpq1, hk, h2]⟩

theorem alInsert_rel (hpq : ∀ a b, S a b → p a.1 = q b.1)
    {k₁ : K₁} {v₁ : V₁} {k₂ : K₂} {v₂ : V₂}
    (hnew : S (k₁, v₁) (k₂, v₂))
    (hval : ∀ a b, S a b → S (a.1, v₁) (b.1, v₂))
    {l₁ : List (K₁ × V₁)} {l₂ : List (K₂ × V₂)} (h : List.Forall₂ S l₁ l₂) :
    (alInsert p k₁ v₁ l₁).1.isSome = (alInsert q k₂ v₂ l₂).1.isSome ∧
    List.Forall₂ S (alInsert p k₁ v₁ l₁).2 (alInsert q k₂ v₂ l₂).2 := by
  induction h with
  | nil => exact ⟨rfl, List.Forall₂.cons hnew List.Forall₂.nil⟩
  | cons hab hrest ih =>
      rename_i a b l₁ l₂
      obtain ⟨ka, va⟩ := a
      obtain ⟨kb, vb⟩ := b
      have hpq1 := hpq _ _ hab
      simp only at hpq1
      by_cases hk : p ka = true
      · constructor
        · simp [alInsert, hk, ← hpq1]
        · simp only [alInsert, hk, ← hpq1, if_true]
          exact List.Forall₂.cons (hval _ _ hab) hrest
      · simp only [Bool.not_eq_true] at hk
        constructor
        · simp [alInsert, hk, ← hpq1, ih.1]
        · simp only [alInsert, hk, ← hpq1, Bool.false_eq_true, if_false]
          exact List.Forall₂.cons hab ih.2

theorem alRemove_rel (hpq : ∀ a b, S a b → p a.1 = q b.1)
    {l₁ : List (K₁ × V₁)} {l₂ : List (K₂ × V₂)} (h : List.Forall₂ S l₁ l₂) :
    (alRemove p l₁ = (none, l₁) ∧ alRemove q l₂ = (none, l₂)) ∨
    ∃ a b, S a b ∧ p a.1 = true ∧ (alRemove p l₁).1 = some a ∧
      (alRemove q l₂).1 = some b ∧
      List.Forall₂ S (alRemove p l₁).2 (alRemove q l₂).2 := by
  induction h with
  | nil => exact Or.inl ⟨rfl, rfl⟩
  | cons hab hrest ih =>
      rename_i a b l₁ l₂
      obtain ⟨ka, va⟩ := a
      obtain ⟨kb, vb⟩ := b
      have hpq1 := hpq _ _ hab
      simp only at hpq1
      by_cases hk : p ka = true
      · exact Or.inr ⟨(ka, va), (kb, vb), hab, hk, by simp [alRemove, hk],
          by simp [alRemove, ← hpq1, hk], by
            simp only [alRemove, hk, ← hpq1, if_true]
            exact hrest⟩
      · simp only [Bool.not_eq_true] at hk
        rcases ih with ⟨h1, h2⟩ | ⟨a', b', hS, hp1, h1, h2, h3⟩
        · refine Or.inl ⟨?_, ?_⟩
          · simp [alRemove, hk, h1]
          · simp [alRemove, ← hpq1, hk, h2]
        · refine Or.inr ⟨a', b', hS, hp1, by simp [alRemove, hk, h1],
            by simp [alRemove, ← hpq1, hk, h2], ?_⟩
          simp only [alRemove, hk, ← hpq1, Bool.false_eq_true, if_false]
          exact List.Forall₂.cons hab h3

end RelListLemmas

/-! ### Heap lemmas -/

namespace Heap

variable {T : Type}

theorem get_mk_cons_ne {a b : Nat} {x : T} {n f : Nat} {cl : List (Nat × T × Nat)}
    (hba : b ≠ a) : (Heap.mk ((a, x, n) :: cl) f).get b = (Heap.mk cl f).get b := by
  have : a ≠ b := fun h => hba h.symm
  simp [Heap.get, alLookup, this]

theorem get_mk_cons_self {a : Nat} {x : T} {n f : Nat} {cl : List (Nat × T × Nat)} :
    (Heap.mk ((a, x, n) :: cl) f).get a = some x := by
  simp [Heap.get, alLookup]

theorem rc_mk_cons_ne {a b : Nat} {x : T} {n f : Nat} {cl : List (Nat × T × Nat)}
    (hba : b ≠ a) : (Heap.mk ((a, x, n) :: cl) f).rc b = (Heap.mk cl f).rc b := by
  have : a ≠ b := fun h => hba h.symm
  simp [Heap.rc, alLookup, this]

theorem rcD_mk_cons_ne {a b : Nat} {x : T} {n f : Nat} {cl : List (Nat × T × Nat)}
    (hba : b ≠ a) : (Heap.mk ((a, x, n) :: cl) f).rcD b = (Heap.mk cl f).rcD b := by
  rw [Heap.rcD, Heap.rcD, rc_mk_cons_ne hba]

theorem rcD_mk_cons_self {a : Nat} {x : T} {n f : Nat} {cl : List (Nat × T × Nat)} :
    (Heap.mk ((a, x, n) :: cl) f).rcD a = n := by
  simp [Heap.rcD, Heap.rc, alLookup]

theorem rc_eq_none_of_not_mem {h : Heap T} {a : Nat}
    (ha : a ∉ h.cells.map Prod.fst) : h.rc a = none := by
  have hl : alLookup (fun b => decide (b = a)) h.cells = none := by
    refine alLookup_eq_none.mpr ?_
    intro c hc
    by_contra hne
    simp only [Bool.not_eq_false, decide_eq_true_eq] at hne
    exact ha (hne ▸ List.mem_map_of_mem Prod.fst hc)
  rw [Heap.rc, hl]
  rfl

theorem decr_fresh {h : Heap T} {a : Nat} : (h.decr a).fresh = h.fresh := rfl

theorem decrCells_cons_self_le {a : Nat} {x : T} {cn : Nat}
    {rest : List (Nat × T × Nat)} (hcn : cn ≤ 1) :
    decrCells a ((a, x, cn) :: rest) = rest := by
  unfold decrCells
  rw [if_pos rfl, if_pos hcn]

theorem decrCells_cons_self_gt {a : Nat} {x : T} {cn : Nat}
    {rest : List (Nat × T × Nat)} (hcn : ¬cn ≤ 1) :
    decrCells a ((a, x, cn) :: rest) = (a, x, cn - 1) :: rest := by
  unfold decrCells
  rw [if_pos rfl, if_neg hcn]

theorem decrCells_cons_ne {a ca : Nat} {x : T} {cn : Nat}
    {rest : List (Nat × T × Nat)} (hca : ca ≠ a) :
    decrCells a ((ca, x, cn) :: rest) = (ca, x, cn) :: decrCells a rest := by
  conv =>
    lhs
    rw [decrCells]
  rw [if_neg hca]

theorem get_decr_ne {h : Heap T} {a b : Nat} (hba : b ≠ a) :
    (h.decr a).get b = h.get b := by
  obtain ⟨cl, f⟩ := h
  induction cl with
  | nil => rfl
  | cons c rest ih =>
      obtain ⟨ca, cx, cn⟩ := c
      show (Heap.mk (decrCells a ((ca, cx, cn) :: rest)) f).get b = _
      by_cases hca : ca = a
      · subst hca
        by_cases hcn : cn ≤ 1
        · rw [decrCells_cons_self_le hcn, get_mk_cons_ne hba]
        · rw [decrCells_cons_self_gt hcn, get_mk_cons_ne hba, get_mk_cons_ne hba]
      · rw [decrCells_cons_ne hca]
        by_cases hcb : ca = b
        · subst hcb
          rw [get_mk_cons_self, get_mk_cons_self]
        · have h1 : b ≠ ca := fun h => hcb h.symm
          rw [get_mk_cons_ne h1, get_mk_cons_ne h1]
          exact ih

theorem rcD_decr_ne {h : Heap T} {a b : Nat} (hba : b ≠ a) :
    (h.decr a).rcD b = h.rcD b := by
  obtain ⟨cl, f⟩ := h
  induction cl with
  | nil => rfl
  | cons c rest ih =>
      obtain ⟨ca, cx, cn⟩ := c
      show (Heap.mk (decrCells a ((ca, cx, cn) :: rest)) f).rcD b = _
      by_cases hca : ca = a
      · subst hca
        by_cases hcn : cn ≤ 1
        · rw [decrCells_cons_self_le hcn, rcD_mk_cons_ne hba]
        · rw [decrCells_cons_self_gt hcn, rcD_mk_cons_ne hba, rcD_mk_cons_ne hba]
      · rw [decrCells_cons_ne hca]
        by_cases hcb : ca = b
        · subst hcb
          rw [rcD_mk_cons_self, rcD_mk_cons_self]
        · have h1 : b ≠ ca := fun h => hcb h.symm
          rw [rcD_mk_cons_ne h1, rcD_mk_cons_ne h1]
          exact ih

theorem rcD_decr_self {h : Heap T} {a : Nat}
    (hnd : (h.cells.map Prod.fst).Nodup) : (h.decr a).rcD a = h.rcD a - 1 := by
  obtain ⟨cl, f⟩ := h
  induction cl with
  | nil => rfl
  | cons c rest ih =>
      obtain ⟨ca, cx, cn⟩ := c
      rw [List.map_cons, List.nodup_cons] at hnd
      show (Heap.mk (decrCells a ((ca, cx, cn) :: rest)) f).rcD a = _
      by_cases hca : ca = a
      · subst hca
        by_cases hcn : cn ≤ 1
        · rw [decrCells_cons_self_le hcn, rcD_mk_cons_self]
          have hnone : (Heap.mk rest f : Heap T).rc ca = none :=
            rc_eq_none_of_not_mem hnd.1
          rw [Heap.rcD, hnone]
          simp only [Option.getD_none]
          omega
        · rw [decrCells_cons_self_gt hcn, rcD_mk_cons_self, rcD_mk_cons_self]
      · rw [decrCells_cons_ne hca]
        have h1 : a ≠ ca := fun h => hca h.symm
        rw [rcD_mk_cons_ne h1, rcD_mk_cons_ne h1]
        exact ih hnd.2

theorem get_decr_self {h : Heap T} {a : Nat}
    (hnd : (h.cells.map Prod.fst).Nodup) (h2 : 2 ≤ h.rcD a) :
    (h.decr a).get a = h.get a := by
  obtain ⟨cl, f⟩ := h
  induction cl with
  | nil => rfl
  | cons c rest ih =>
      obtain ⟨ca, cx, cn⟩ := c
      rw [List.map_cons, List.nodup_cons] at hnd
      show (Heap.mk (decrCells a ((ca, cx, cn) :: rest)) f).get a = _
      by_cases hca : ca = a
      · subst hca
        rw [rcD_mk_cons_self] at h2
        have hcn : ¬cn ≤ 1 := by omega
        rw [decrCells_cons_self_gt hcn, get_mk_cons_self, get_mk_cons_self]
      · rw [decrCells_cons_ne hca]
        have h1 : a ≠ ca := fun h => hca h.symm
        rw [get_mk_cons_ne h1, get_mk_cons_ne h1]
        refine ih hnd.2 ?_
        rwa [rcD_mk_cons_ne h1] at h2

theorem decr_pos {h : Heap T} {a : Nat}
    (hpos : ∀ c ∈ h.cells, 0 < c.2.2) :
    ∀ c ∈ (h.decr a).cells, 0 < c.2.2 := by
  obtain ⟨cl, f⟩ := h
  induction cl with
  | nil => intro c hc; cases hc
  | cons c rest ih =>
      obtain ⟨ca, cx, cn⟩ := c
      intro d hd
      have hd2 : d ∈ decrCells a ((ca, cx, cn) :: rest) := hd
      clear hd
      show 0 < d.2.2
      by_cases hca : ca = a
      · subst hca
        by_cases hcn : cn ≤ 1
        · rw [decrCells_cons_self_le hcn] at hd2
          exact hpos d (by simp [hd2])
        · rw [decrCells_cons_self_gt hcn] at hd2
          rcases List.mem_cons.mp hd2 with h1 | h1
          · subst h1; simp; omega
          · exact hpos d (by simp [h1])
      · rw [decrCells_cons_ne hca] at hd2
        rcases List.mem_cons.mp hd2 with h1 | h1
        · subst h1; exact hpos _ (by simp)
        · exact ih (fun c hc => hpos c (by simp [hc])) d h1

theorem decrCells_fst_sublist {a : Nat} (cl : List (Nat × T × Nat)) :
    ((decrCells a cl).map Prod.fst).Sublist (cl.map Prod.fst) := by
  induction cl with
  | nil => simp [decrCells]
  | cons c rest ih =>
      obtain ⟨ca, cx, cn⟩ := c
      by_cases hca : ca = a
      · subst hca
        by_cases hcn : cn ≤ 1
        · rw [decrCells_cons_self_le hcn, List.map_cons]
          exact (List.Sublist.refl _).cons _
        · rw [decrCells_cons_self_gt hcn, List.map_cons, List.map_cons]
      · rw [decrCells_cons_ne hca, List.map_cons, List.map_cons]
        exact ih.cons₂ _

theorem decr_nodup {h : Heap T} {a : Nat}
    (hnd : (h.cells.map Prod.fst).Nodup) :
    ((h.decr a).cells.map Prod.fst).Nodup :=
  (decrCells_fst_sublist h.cells).nodup hnd

theorem decr_keys_subset {h : Heap T} {a b : Nat}
    (hb : b ∈ (h.decr a).cells.map Prod.fst) : b ∈ h.cells.map Prod.fst :=
  (decrCells_fst_sublist h.cells).subset hb

theorem get_isSome_of_rcD_pos {h : Heap T} {a : Nat} (hpos : 0 < h.rcD a) :
    (h.get a).isSome = true := by
  rw [Heap.rcD, Heap.rc] at hpos
  rw [Heap.get]
  cases hl : alLookup (fun b => decide (b = a)) h.cells with
  | none => rw [hl] at hpos; simp at hpos
  | some e => simp [hl]

theorem alloc_incr_eq {h : Heap T} {x : T}
    (hb : ∀ c ∈ h.cells, c.1 ≠ h.fresh) :
    (h.alloc x).2.incr (h.alloc x).1 =
      Heap.mk ((h.fresh, x, 2) :: h.cells) (h.fresh + 1) := by
  have hmap : h.cells.map
      (fun c => if c.1 = h.fresh then (c.1, c.2.1, c.2.2 + 1) else c) =
      h.cells.map id := List.map_congr_left (fun c hc => by simp [hb c hc])
  simp only [Heap.alloc, Heap.incr, List.map_cons, hmap, List.map_id]
  simp

end Heap

/-! ### Further association-list and `Forall₂` support lemmas -/

section SupportLemmas

variable {K V : Type} {p : K → Bool}

theorem alRemove_fst_isSome {l : List (K × V)} :
    (alRemove p l).1.isSome = (alLookup p l).isSome := by
  induction l with
  | nil => rfl
  | cons e rest ih =>
      obtain ⟨k, v⟩ := e
      by_cases h : p k = true
      · simp [alRemove, alLookup, h]
      · simp only [Bool.not_eq_true] at h
        simp [alRemove, alLookup, h, ih]

theorem alRemove_found_decomp {l : List (K × V)} {e : K × V}
    (h : (alRemove p l).1 = some e) :
    e ∈ l ∧ p e.1 = true ∧
    ∃ l₁ l₂, l = l₁ ++ e :: l₂ ∧ (alRemove p l).2 = l₁ ++ l₂ ∧
      ∀ d ∈ l₁, p d.1 = false := by
  induction l with
  | nil => simp [alRemove] at h
  | cons c rest ih =>
      obtain ⟨k, v⟩ := c
      by_cases hk : p k = true
      · simp only [alRemove, hk, if_true, Option.some.injEq] at h
        subst h
        exact ⟨by simp, hk, [], rest, by simp, by simp [alRemove, hk], by simp⟩
      · simp only [Bool.not_eq_true] at hk
        simp only [alRemove, hk, Bool.false_eq_true, if_false] at h
        obtain ⟨hmem, hpe, l₁, l₂, hdec, hrest, hfalse⟩ := ih h
        refine ⟨by simp [hmem], hpe, (k, v) :: l₁, l₂, by simp [hdec], ?_, ?_⟩
        · simp [alRemove, hk, hrest]
        · intro d hd
          rcases List.mem_cons.mp hd with h1 | h1
          · simp [h1, hk]
          · exact hfalse d h1

theorem alInsert_map_fst_of_found {l : List (K × V)} {k : K} {v : V}
    (h : (alLookup p l).isSome = true) :
    (alInsert p k v l).2.map Prod.fst = l.map Prod.fst := by
  induction l with
  | nil => simp [alLookup] at h
  | cons c rest ih =>
      obtain ⟨k₀, v₀⟩ := c
      by_cases hk : p k₀ = true
      · simp [alInsert, hk]
      · simp only [Bool.not_eq_true] at hk
        simp only [alLookup, hk, Bool.false_eq_true, if_false] at h
        simp [alInsert, hk, ih h]

variable {A B : Type} {S S' : A → B → Prop}

theorem forall₂_append {l₁ u₁ : List A} {l₂ u₂ : List B}
    (h₁ : List.Forall₂ S l₁ l₂) (h₂ : List.Forall₂ S u₁ u₂) :
    List.Forall₂ S (l₁ ++ u₁) (l₂ ++ u₂) := by
  induction h₁ with
  | nil => exact h₂
  | cons hab _ ih => exact List.Forall₂.cons hab ih

theorem forall₂_imp_mem {l₁ : List A} {l₂ : List B}
    (h : List.Forall₂ S l₁ l₂)
    (himp : ∀ a b, a ∈ l₁ → b ∈ l₂ → S a b → S' a b) :
    List.Forall₂ S' l₁ l₂ := by
  induction h with
  | nil => exact List.Forall₂.nil
  | cons hab hrest ih =>
      refine List.Forall₂.cons (himp _ _ (by simp) (by simp) hab) ?_
      exact ih fun a b ha hb hS => himp a b (by simp [ha]) (by simp [hb]) hS

theorem forall₂_mem_right {l₁ : List A} {l₂ : List B}
    (h : List.Forall₂ S l₁ l₂) : ∀ b ∈ l₂, ∃ a ∈ l₁, S a b := by
  induction h with
  | nil => intro b hb; cases hb
  | cons hab hrest ih =>
      intro b hb
      rcases List.mem_cons.mp hb with h1 | h1
      · exact ⟨_, by simp, h1 ▸ hab⟩
      · obtain ⟨a, ha, hS⟩ := ih b h1
        exact ⟨a, by simp [ha], hS⟩

end SupportLemmas

/-! ### ID and heap corollaries -/

theorem ID.step_some {i j : ID} (h : i.step = some j) :
    j.val = i.val + 1 ∧ i.val + 1 < USIZE := by
  rw [ID.step] at h
  by_cases hlt : i.val + 1 < USIZE
  · rw [if_pos hlt] at h
    have hj : (⟨i.val + 1⟩ : ID) = j := Option.some.inj h
    exact ⟨by rw [← hj], hlt⟩
  · rw [if_neg hlt] at h
    cases h

theorem ID.step_none {i : ID} (h : i.step = none) : ¬i.val + 1 < USIZE := by
  rw [ID.step] at h
  by_cases hlt : i.val + 1 < USIZE
  · rw [if_pos hlt] at h; cases h
  · exact hlt

theorem Heap.rc_eq_some_mem {T : Type} {h : Heap T} {a n : Nat}
    (hrc : h.rc a = some n) : ∃ x, (a, x, n) ∈ h.cells := by
  rw [Heap.rc] at hrc
  rcases Option.map_eq_some'.mp hrc with ⟨e, he, hsnd⟩
  obtain ⟨l₁, k, l₂, hdec, hp, -⟩ := alLookup_eq_some he
  have hk : k = a := by simpa using hp
  subst hk
  exact ⟨e.1, by rw [hdec]; simp [← hsnd]⟩

theorem Heap.get_mk_fresh_irrel {T : Type} {cl : List (Nat × T × Nat)}
    {f g b : Nat} : (Heap.mk cl f).get b = (Heap.mk cl g).get b := rfl

theorem Heap.rcD_mk_fresh_irrel {T : Type} {cl : List (Nat × T × Nat)}
    {f g b : Nat} : (Heap.mk cl f).rcD b = (Heap.mk cl g).rcD b := rfl

/-! ### Corollaries of `HeapWF` -/

section WFLemmas

variable {T : Type} {m₃ : IDManager3 T}

theorem addr_facts_of_occ_pos (hwf : HeapWF m₃) {a : Nat}
    (hocc : 0 < occEnt m₃.id_to_item m₃.item_to_id a) :
    0 < m₃.heap.rcD a ∧ a < m₃.heap.fresh := by
  obtain ⟨-, hH2, -, hH4⟩ := hwf
  have hrc : 0 < m₃.heap.rcD a := by rw [hH4 a]; exact hocc
  refine ⟨hrc, ?_⟩
  rw [Heap.rcD] at hrc
  cases hsome : m₃.heap.rc a with
  | none => rw [hsome] at hrc; simp at hrc
  | some n =>
      obtain ⟨x, hx⟩ := Heap.rc_eq_some_mem hsome
      exact hH2 _ hx

theorem fwd_addr_lt_fresh (hwf : HeapWF m₃) {f : ID × Nat}
    (hf : f ∈ m₃.id_to_item) : f.2 < m₃.heap.fresh := by
  refine (addr_facts_of_occ_pos hwf ?_).2
  have : f.2 ∈ m₃.id_to_item.map Prod.snd := List.mem_map_of_mem Prod.snd hf
  have hc : 0 < (m₃.id_to_item.map Prod.snd).count f.2 := List.count_pos_iff.mpr this
  rw [occEnt]
  omega

theorem rev_addr_lt_fresh (hwf : HeapWF m₃) {f : Nat × ID}
    (hf : f ∈ m₃.item_to_id) : f.1 < m₃.heap.fresh := by
  refine (addr_facts_of_occ_pos hwf ?_).2
  have : f.1 ∈ m₃.item_to_id.map Prod.fst := List.mem_map_of_mem Prod.fst hf
  have hc : 0 < (m₃.item_to_id.map Prod.fst).count f.1 := List.count_pos_iff.mpr this
  rw [occEnt]
  omega

theorem fresh_count_fwd (hwf : HeapWF m₃) :
    (m₃.id_to_item.map Prod.snd).count m₃.heap.fresh = 0 := by
  rw [List.count_eq_zero]
  intro hmem
  obtain ⟨f, hf, hval⟩ := List.mem_map.mp hmem
  exact absurd (hval ▸ fwd_addr_lt_fresh hwf hf) (lt_irrefl _)

theorem fresh_count_rev (hwf : HeapWF m₃) :
    (m₃.item_to_id.map Prod.fst).count m₃.heap.fresh = 0 := by
  rw [List.count_eq_zero]
  intro hmem
  obtain ⟨f, hf, hval⟩ := List.mem_map.mp hmem
  exact absurd (hval ▸ rev_addr_lt_fresh hwf hf) (lt_irrefl _)

end WFLemmas

/-! ### Simulation: agreement of the public operations -/

section Agreement

variable {T : Type} [DecidableEq T] {m₁ : IDManager1 T} {m₃ : IDManager3 T}

theorem get_id_agree (hg : Good m₁ m₃) (x : T) : m₁.get_id x = m₃.get_id x := by
  obtain ⟨-, ⟨-, -, hrev⟩, -⟩ := hg
  have hpq : ∀ (e : T × ID) (f : Nat × ID), RevR m₃.heap e f →
      (fun y => decide (y = x)) e.1 = (fun b => decide (m₃.heap.get b = some x)) f.1 := by
    intro e f hS
    simp only
    rw [hS.1]
    exact decide_eq_decide.mpr (by simp)
  rcases alLookup_rel (p := fun y => decide (y = x))
      (q := fun b => decide (m₃.heap.get b = some x)) hpq hrev with
    ⟨h1, h2⟩ | ⟨e, f, hS, -, h1, h2⟩
  · rw [IDManager1.get_id, IDManager3.get_id, h1, h2]
  · rw [IDManager1.get_id, IDManager3.get_id, h1, h2, hS.2]

omit [DecidableEq T] in
theorem get_item_agree (hg : Good m₁ m₃) (i : ID) : m₁.get_item i = m₃.get_item i := by
  obtain ⟨-, ⟨-, hfwd, -⟩, -⟩ := hg
  have hpq : ∀ (e : ID × T) (f : ID × Nat), FwdR m₃.heap e f →
      (fun j => decide (j = i)) e.1 = (fun j => decide (j = i)) f.1 := by
    intro e f hS
    simp only
    rw [hS.1]
  rcases alLookup_rel (p := fun j => decide (j = i))
      (q := fun j => decide (j = i)) hpq hfwd with
    ⟨h1, h2⟩ | ⟨e, f, hS, -, h1, h2⟩
  · rw [IDManager1.get_item, IDManager3.get_item, h1, h2]
    rfl
  · rw [IDManager1.get_item, IDManager3.get_item, h1, h2]
    exact hS.2.symm

theorem insert_agree (hg : Good m₁ m₃) (x : T) :
    (m₁.insert x = none ∧ m₃.insert x = none) ∨
    (∃ n₁ n₃, m₁.insert x = some (m₁.next_id, n₁) ∧
      m₃.insert x = some (m₁.next_id, n₃) ∧
      n₁.next_id.val = m₁.next_id.val + 1 ∧ Good n₁ n₃) := by
  obtain ⟨hinv, hrel, hwf⟩ := hg
  obtain ⟨hA1, hA2, hA3, hA4, hA5, hA6⟩ := hinv
  obtain ⟨hnid, hfwd, hrev⟩ := hrel
  have hH1 := hwf.1
  have hH2 := hwf.2.1
  have hH3 := hwf.2.2.1
  have hH4 := hwf.2.2.2
  -- the forward insert appends on both sides
  have hpF1 : ∀ e ∈ m₁.id_to_item, (fun j => decide (j = m₁.next_id)) e.1 = false := by
    intro e he
    have hbound := hA3 e he
    simp only [decide_eq_false_iff_not]
    intro hEq
    rw [hEq] at hbound
    exact lt_irrefl _ hbound
  have hF1ins := alInsert_of_forall_false (p := fun j => decide (j = m₁.next_id))
    (k := m₁.next_id) (v := x) hpF1
  have hF1snd : (alInsert (fun j => decide (j = m₁.next_id)) m₁.next_id x
      m₁.id_to_item).2 = m₁.id_to_item ++ [(m₁.next_id, x)] := by rw [hF1ins]
  have hpF3 : ∀ f ∈ m₃.id_to_item, (fun j => decide (j = m₁.next_id)) f.1 = false := by
    intro f hf
    obtain ⟨e, he, hS⟩ := forall₂_mem_right hfwd f hf
    have he2 := hpF1 e he
    simp only [decide_eq_false_iff_not] at he2 ⊢
    rw [← hS.1]
    exact he2
  have hF3ins := alInsert_of_forall_false (p := fun j => decide (j = m₁.next_id))
    (k := m₁.next_id) (v := m₃.heap.fresh) hpF3
  have hF3fst : (alInsert (fun j => decide (j = m₁.next_id)) m₁.next_id
      m₃.heap.fresh m₃.id_to_item).1 = none := by rw [hF3ins]
  have hF3snd : (alInsert (fun j => decide (j = m₁.next_id)) m₁.next_id
      m₃.heap.fresh m₃.id_to_item).2 =
      m₃.id_to_item ++ [(m₁.next_id, m₃.heap.fresh)] := by rw [hF3ins]
  -- the heap after Rc::new and the first clone
  have hbne : ∀ c ∈ m₃.heap.cells, c.1 ≠ m₃.heap.fresh := fun c hc => Nat.ne_of_lt (hH2 c hc)
  have hfreshmem : m₃.heap.fresh ∉ m₃.heap.cells.map Prod.fst := by
    intro hmem
    obtain ⟨c, hc, hfst⟩ := List.mem_map.mp hmem
    exact hbne c hc hfst
  have hHIeq := Heap.alloc_incr_eq (x := x) hbne
  have halloc1 : (m₃.heap.alloc x).1 = m₃.heap.fresh := rfl
  have hHIeq2 : (m₃.heap.alloc x).2.incr m₃.heap.fresh =
      Heap.mk ((m₃.heap.fresh, x, 2) :: m₃.heap.cells) (m₃.heap.fresh + 1) := hHIeq
  have hgetHI : ∀ b, b ≠ m₃.heap.fresh →
      (Heap.mk ((m₃.heap.fresh, x, 2) :: m₃.heap.cells) (m₃.heap.fresh + 1)).get b =
        m₃.heap.get b := by
    intro b hb
    calc (Heap.mk ((m₃.heap.fresh, x, 2) :: m₃.heap.cells) (m₃.heap.fresh + 1)).get b
        = (Heap.mk m₃.heap.cells (m₃.heap.fresh + 1)).get b := Heap.get_mk_cons_ne hb
      _ = (Heap.mk m₃.heap.cells m₃.heap.fresh).get b := Heap.get_mk_fresh_irrel
      _ = m₃.heap.get b := rfl
  have hgetHIa : (Heap.mk ((m₃.heap.fresh, x, 2) :: m₃.heap.cells) (m₃.heap.fresh + 1)).get
      m₃.heap.fresh = some x := Heap.get_mk_cons_self
  have hrevne : ∀ f ∈ m₃.item_to_id, f.1 ≠ m₃.heap.fresh :=
    fun f hf => Nat.ne_of_lt (rev_addr_lt_fresh hwf hf)
  have hfwdne : ∀ f ∈ m₃.id_to_item, f.2 ≠ m₃.heap.fresh :=
    fun f hf => Nat.ne_of_lt (fwd_addr_lt_fresh hwf hf)
  have hrevHI : List.Forall₂
      (RevR (Heap.mk ((m₃.heap.fresh, x, 2) :: m₃.heap.cells) (m₃.heap.fresh + 1)))
      m₁.item_to_id m₃.item_to_id :=
    forall₂_imp_mem hrev (fun e f _ hf hS =>
      ⟨by rw [hgetHI f.1 (hrevne f hf)]; exact hS.1, hS.2⟩)
  have hrevpq : ∀ (e : T × ID) (f : Nat × ID),
      RevR (Heap.mk ((m₃.heap.fresh, x, 2) :: m₃.heap.cells) (m₃.heap.fresh + 1)) e f →
      (fun y => decide (y = x)) e.1 =
      (fun b => decide ((Heap.mk ((m₃.heap.fresh, x, 2) :: m₃.heap.cells)
        (m₃.heap.fresh + 1)).get b = some x)) f.1 := by
    intro e f hS
    simp only
    rw [hS.1]
    exact decide_eq_decide.mpr (by simp)
  have hrevins := alInsert_rel (p := fun y => decide (y = x))
      (q := fun b => decide ((Heap.mk ((m₃.heap.fresh, x, 2) :: m₃.heap.cells)
        (m₃.heap.fresh + 1)).get b = some x)) hrevpq
      (show RevR (Heap.mk ((m₃.heap.fresh, x, 2) :: m₃.heap.cells)
        (m₃.heap.fresh + 1)) (x, m₁.next_id) (m₃.heap.fresh, m₁.next_id) from
        ⟨hgetHIa, rfl⟩) (fun e f hS => ⟨hS.1, rfl⟩) hrevHI
  -- bounds used by `Inv1`
  have hkeysne : ∀ d ∈ m₁.id_to_item.map Prod.fst, d ≠ m₁.next_id := by
    intro d hd hdn
    obtain ⟨e, he, hfst⟩ := List.mem_map.mp hd
    have := hA3 e he
    rw [hfst, hdn] at this
    exact lt_irrefl _ this
  have hrevidne : ∀ d ∈ m₁.item_to_id.map Prod.snd, d ≠ m₁.next_id := by
    intro d hd hdn
    obtain ⟨e, he, hsnd⟩ := List.mem_map.mp hd
    have := hA4 e he
    rw [hsnd, hdn] at this
    exact lt_irrefl _ this
  cases hx : m₁.get_id x with
  | none =>
      -- fresh value: both reverse inserts append, no handle is dropped
      have hpR1 : ∀ e ∈ m₁.item_to_id, (fun y => decide (y = x)) e.1 = false := by
        rw [IDManager1.get_id] at hx
        exact alLookup_eq_none.mp hx
      have hR1ins := alInsert_of_forall_false (p := fun y => decide (y = x))
        (k := x) (v := m₁.next_id) hpR1
      have hR1snd : (alInsert (fun y => decide (y = x)) x m₁.next_id
          m₁.item_to_id).2 = m₁.item_to_id ++ [(x, m₁.next_id)] := by rw [hR1ins]
      have hpR3 : ∀ f ∈ m₃.item_to_id,
          (fun b => decide ((Heap.mk ((m₃.heap.fresh, x, 2) :: m₃.heap.cells)
            (m₃.heap.fresh + 1)).get b = some x)) f.1 = false := by
        intro f hf
        obtain ⟨e, he, hS⟩ := forall₂_mem_right hrevHI f hf
        rw [← hrevpq e f hS]
        exact hpR1 e he
      have hR3ins := alInsert_of_forall_false
        (p := fun b => decide ((Heap.mk ((m₃.heap.fresh, x, 2) :: m₃.heap.cells)
          (m₃.heap.fresh + 1)).get b = some x))
        (k := m₃.heap.fresh) (v := m₁.next_id) hpR3
      have hR3fst0 : (alInsert (fun b => decide ((Heap.mk ((m₃.heap.fresh, x, 2) ::
          m₃.heap.cells) (m₃.heap.fresh + 1)).get b = some x)) m₃.heap.fresh
          m₁.next_id m₃.item_to_id).1 = none := by rw [hR3ins]
      have hR3snd : (alInsert (fun b => decide ((Heap.mk ((m₃.heap.fresh, x, 2) ::
          m₃.heap.cells) (m₃.heap.fresh + 1)).get b = some x)) m₃.heap.fresh
          m₁.next_id m₃.item_to_id).2 =
          m₃.item_to_id ++ [(m₃.heap.fresh, m₁.next_id)] := by rw [hR3ins]
      cases hstep : m₁.next_id.step with
      | none =>
          left
          constructor
          · simp only [IDManager1.insert]
            rw [hstep]
          · simp only [IDManager3.insert]
            rw [← hnid, hstep]
      | some nid =>
          right
          have hnv := ID.step_some hstep
          have hnv1 : nid.val = m₁.next_id.val + 1 := hnv.1
          refine ⟨⟨nid, m₁.id_to_item ++ [(m₁.next_id, x)],
              m₁.item_to_id ++ [(x, m₁.next_id)]⟩,
            ⟨nid, m₃.id_to_item ++ [(m₁.next_id, m₃.heap.fresh)],
              m₃.item_to_id ++ [(m₃.heap.fresh, m₁.next_id)],
              Heap.mk ((m₃.heap.fresh, x, 2) :: m₃.heap.cells) (m₃.heap.fresh + 1)⟩,
            ?_, ?_, hnv1, ?_⟩
          · simp only [IDManager1.insert]
            rw [hF1snd, hR1snd, hstep]
          · simp only [IDManager3.insert]
            rw [← hnid, halloc1, hHIeq2, hF3fst]
            simp only [Heap.dropOpt]
            rw [hF3snd, hR3snd, if_neg (by rw [hR3fst0]; simp), hstep]
          · -- the combined invariant for the appended states
            refine ⟨⟨?_, ?_, ?_, ?_, ?_, ?_⟩, ⟨rfl, ?_, ?_⟩, ?_, ?_, ?_, ?_⟩
            · rw [List.map_append]
              exact List.Nodup.append hA1 (List.nodup_singleton _)
                (fun d hd hdn => hkeysne d hd (by simpa using hdn))
            · rw [List.map_append]
              refine List.Nodup.append hA2 (List.nodup_singleton _) ?_
              intro d hd hdn
              obtain ⟨e, he, hfst⟩ := List.mem_map.mp hd
              have := hpR1 e he
              simp only [decide_eq_false_iff_not] at this
              exact this (by rw [hfst]; simpa using hdn)
            · intro e he
              show e.1.val < nid.val
              rcases List.mem_append.mp he with h1 | h1
              · have := hA3 e h1
                omega
              · have he2 : e = (m₁.next_id, x) := by simpa using h1
                subst he2
                show m₁.next_id.val < nid.val
                omega
            · intro e he
              show e.2.val < nid.val
              rcases List.mem_append.mp he with h1 | h1
              · have := hA4 e h1
                omega
              · have he2 : e = (x, m₁.next_id) := by simpa using h1
                subst he2
                show m₁.next_id.val < nid.val
                omega
            · rw [List.map_append]
              exact List.Nodup.append hA5 (List.nodup_singleton _)
                (fun d hd hdn => hrevidne d hd (by simpa using hdn))
            · intro e he
              rcases List.mem_append.mp he with h1 | h1
              · exact List.mem_append_left _ (hA6 e h1)
              · have he2 : e = (x, m₁.next_id) := by simpa using h1
                subst he2
                exact List.mem_append_right _ (by simp)
            · -- forward correspondence
              refine forall₂_append ?_ (List.Forall₂.cons ⟨rfl, hgetHIa⟩ List.Forall₂.nil)
              exact forall₂_imp_mem hfwd (fun e f _ hf hS =>
                ⟨hS.1, by rw [hgetHI f.2 (hfwdne f hf)]; exact hS.2⟩)
            · -- reverse correspondence
              exact forall₂_append hrevHI
                (List.Forall₂.cons ⟨hgetHIa, rfl⟩ List.Forall₂.nil)
            · simp only [List.map_cons, List.nodup_cons]
              exact ⟨hfreshmem, hH1⟩
            · intro c hc
              show c.1 < m₃.heap.fresh + 1
              rcases List.mem_cons.mp hc with h1 | h1
              · subst h1
                show m₃.heap.fresh < m₃.heap.fresh + 1
                omega
              · have := hH2 c h1
                omega
            · intro c hc
              show 0 < c.2.2
              rcases List.mem_cons.mp hc with h1 | h1
              · subst h1
                exact Nat.succ_pos _
              · exact hH3 c h1
            · intro b
              by_cases hb : b = m₃.heap.fresh
              · subst hb
                rw [Heap.rcD_mk_cons_self, occEnt]
                simp only [List.map_append, List.count_append]
                rw [fresh_count_fwd hwf, fresh_count_rev hwf]
                simp [List.count_singleton']
              · rw [Heap.rcD_mk_cons_ne hb,
                  Heap.rcD_mk_fresh_irrel (g := m₃.heap.fresh)]
                have hrceq : (Heap.mk m₃.heap.cells m₃.heap.fresh : Heap T).rcD b =
                    m₃.heap.rcD b := rfl
                rw [hrceq, hH4 b, occEnt, occEnt]
                simp only [List.map_append, List.count_append]
                have h1 : ((([(m₁.next_id, m₃.heap.fresh)] : List (ID × Nat)).map
                    Prod.snd).count b) = 0 := by
                  simp only [List.map_cons, List.map_nil, List.count_singleton']
                  simp only [ite_eq_right_iff]
                  intro h
                  exact absurd h.symm hb
                have h2 : ((([(m₃.heap.fresh, m₁.next_id)] : List (Nat × ID)).map
                    Prod.fst).count b) = 0 := by
                  simp only [List.map_cons, List.map_nil, List.count_singleton']
                  simp only [ite_eq_right_iff]
                  intro h
                  exact absurd h.symm hb
                rw [h1, h2]
                omega
  | some i₀ =>
      -- re-insertion of a value already present: the reverse index keeps
      -- its old key and the new handle is dropped
      rw [IDManager1.get_id] at hx
      obtain ⟨r₁, x₀, r₂, hdec, hpx₀, hprefix⟩ := alLookup_eq_some hx
      have hx₀ : x₀ = x := by simpa using hpx₀
      rw [hx₀] at hdec hpx₀
      have hR1ins : alInsert (fun y => decide (y = x)) x m₁.next_id m₁.item_to_id =
          (some i₀, r₁ ++ (x, m₁.next_id) :: r₂) := by
        rw [hdec]
        exact alInsert_decomp (p := fun y => decide (y = x)) hprefix hpx₀
      have hR1snd : (alInsert (fun y => decide (y = x)) x m₁.next_id
          m₁.item_to_id).2 = r₁ ++ (x, m₁.next_id) :: r₂ := by rw [hR1ins]
      have hsome1 : (alInsert (fun y => decide (y = x)) x m₁.next_id
          m₁.item_to_id).1.isSome = true := by
        rw [hR1ins]
        rfl
      have hsome3 : (alInsert (fun b => decide ((Heap.mk ((m₃.heap.fresh, x, 2) ::
          m₃.heap.cells) (m₃.heap.fresh + 1)).get b = some x)) m₃.heap.fresh
          m₁.next_id m₃.item_to_id).1.isSome = true := by
        rw [← hrevins.1]
        exact hsome1
      have hlook3 : (alLookup (fun b => decide ((Heap.mk ((m₃.heap.fresh, x, 2) ::
          m₃.heap.cells) (m₃.heap.fresh + 1)).get b = some x))
          m₃.item_to_id).isSome = true := by
        rw [← alInsert_fst (k := m₃.heap.fresh) (v := m₁.next_id)]
        exact hsome3
      have hR3fst : (alInsert (fun b => decide ((Heap.mk ((m₃.heap.fresh, x, 2) ::
          m₃.heap.cells) (m₃.heap.fresh + 1)).get b = some x)) m₃.heap.fresh
          m₁.next_id m₃.item_to_id).2.map Prod.fst = m₃.item_to_id.map Prod.fst :=
        alInsert_map_fst_of_found hlook3
      -- the final heap: the extra handle on the fresh cell is dropped again
      have hHf : (Heap.mk ((m₃.heap.fresh, x, 2) :: m₃.heap.cells)
          (m₃.heap.fresh + 1)).decr m₃.heap.fresh =
          Heap.mk ((m₃.heap.fresh, x, 1) :: m₃.heap.cells) (m₃.heap.fresh + 1) := by
        show Heap.mk (Heap.decrCells m₃.heap.fresh ((m₃.heap.fresh, x, 2) ::
          m₃.heap.cells)) (m₃.heap.fresh + 1) = _
        rw [Heap.decrCells_cons_self_gt (by omega)]
      have hgetHf : ∀ b, (Heap.mk ((m₃.heap.fresh, x, 1) :: m₃.heap.cells)
          (m₃.heap.fresh + 1)).get b =
          (Heap.mk ((m₃.heap.fresh, x, 2) :: m₃.heap.cells)
            (m₃.heap.fresh + 1)).get b := by
        intro b
        by_cases hb : b = m₃.heap.fresh
        · subst hb
          rw [Heap.get_mk_cons_self, Heap.get_mk_cons_self]
        · rw [Heap.get_mk_cons_ne hb, Heap.get_mk_cons_ne hb]
      cases hstep : m₁.next_id.step with
      | none =>
          left
          constructor
          · simp only [IDManager1.insert]
            rw [hstep]
          · simp only [IDManager3.insert]
            rw [← hnid, hstep]
      | some nid =>
          right
          have hnv := ID.step_some hstep
          have hnv1 : nid.val = m₁.next_id.val + 1 := hnv.1
          refine ⟨⟨nid, m₁.id_to_item ++ [(m₁.next_id, x)],
              r₁ ++ (x, m₁.next_id) :: r₂⟩,
            ⟨nid, m₃.id_to_item ++ [(m₁.next_id, m₃.heap.fresh)],
              (alInsert (fun b => decide ((Heap.mk ((m₃.heap.fresh, x, 2) ::
                m₃.heap.cells) (m₃.heap.fresh + 1)).get b = some x)) m₃.heap.fresh
                m₁.next_id m₃.item_to_id).2,
              Heap.mk ((m₃.heap.fresh, x, 1) :: m₃.heap.cells) (m₃.heap.fresh + 1)⟩,
            ?_, ?_, hnv1, ?_⟩
          · simp only [IDManager1.insert]
            rw [hF1snd, hR1snd, hstep]
          · simp only [IDManager3.insert]
            rw [← hnid, halloc1, hHIeq2, hF3fst]
            simp only [Heap.dropOpt]
            rw [hF3snd, if_pos hsome3, hHf, hstep]
          · -- the combined invariant
            have hmemR1 : ∀ e, e ∈ r₁ ∨ e ∈ r₂ → e ∈ m₁.item_to_id := by
              intro e he
              rw [hdec]
              rcases he with h1 | h1
              · exact List.mem_append_left _ h1
              · exact List.mem_append_right _ (by simp [h1])
            refine ⟨⟨?_, ?_, ?_, ?_, ?_, ?_⟩, ⟨rfl, ?_, ?_⟩, ?_, ?_, ?_, ?_⟩
            · rw [List.map_append]
              exact List.Nodup.append hA1 (List.nodup_singleton _)
                (fun d hd hdn => hkeysne d hd (by simpa using hdn))
            · have hsame : (r₁ ++ (x, m₁.next_id) :: r₂).map Prod.fst =
                  (r₁ ++ (x, i₀) :: r₂).map Prod.fst := by simp
              rw [hsame, ← hdec]
              exact hA2
            · intro e he
              show e.1.val < nid.val
              rcases List.mem_append.mp he with h1 | h1
              · have := hA3 e h1
                omega
              · have he2 : e = (m₁.next_id, x) := by simpa using h1
                subst he2
                show m₁.next_id.val < nid.val
                omega
            · intro e he
              show e.2.val < nid.val
              rcases List.mem_append.mp he with h1 | h1
              · have := hA4 e (hmemR1 e (Or.inl h1))
                omega
              · rcases List.mem_cons.mp h1 with h2 | h2
                · subst h2
                  show m₁.next_id.val < nid.val
                  omega
                · have := hA4 e (hmemR1 e (Or.inr h2))
                  omega
            · -- distinct reverse IDs after the in-place update
              have horig : ((r₁ ++ (x, i₀) :: r₂).map Prod.snd).Nodup := by
                rw [← hdec]; exact hA5
              rw [List.map_append, List.map_cons] at horig ⊢
              rw [List.nodup_append] at horig ⊢
              obtain ⟨hn1, hn2, hdisj⟩ := horig
              rw [List.nodup_cons] at hn2 ⊢
              refine ⟨hn1, ⟨?_, hn2.2⟩, ?_⟩
              · intro hmem
                obtain ⟨e, he, hsnd⟩ := List.mem_map.mp hmem
                have := hA4 e (hmemR1 e (Or.inr he))
                rw [hsnd] at this
                exact lt_irrefl _ this
              · intro d hd
                have hdr := hdisj hd
                intro hmem
                rcases List.mem_cons.mp hmem with h2 | h2
                · obtain ⟨e, he, hsnd⟩ := List.mem_map.mp hd
                  have hlt := hA4 e (hmemR1 e (Or.inl he))
                  rw [hsnd, h2] at hlt
                  exact lt_irrefl _ hlt
                · exact hdr (List.mem_cons.mpr (Or.inr h2))
            · intro e he
              rcases List.mem_append.mp he with h1 | h1
              · exact List.mem_append_left _ (hA6 e (hmemR1 e (Or.inl h1)))
              · rcases List.mem_cons.mp h1 with h2 | h2
                · subst h2
                  exact List.mem_append_right _ (by simp)
                · exact List.mem_append_left _ (hA6 e (hmemR1 e (Or.inr h2)))
            · -- forward correspondence
              refine forall₂_append ?_
                (List.Forall₂.cons ⟨rfl, by rw [hgetHf]; exact hgetHIa⟩ List.Forall₂.nil)
              refine forall₂_imp_mem hfwd (fun e f _ hf hS => ⟨hS.1, ?_⟩)
              rw [hgetHf, hgetHI f.2 (hfwdne f hf)]
              exact hS.2
            · -- reverse correspondence
              have h2 := hrevins.2
              rw [hR1snd] at h2
              exact List.Forall₂.imp
                (fun e f hS => ⟨by rw [hgetHf]; exact hS.1, hS.2⟩) h2
            · simp only [List.map_cons, List.nodup_cons]
              exact ⟨hfreshmem, hH1⟩
            · intro c hc
              show c.1 < m₃.heap.fresh + 1
              rcases List.mem_cons.mp hc with h1 | h1
              · subst h1
                show m₃.heap.fresh < m₃.heap.fresh + 1
                omega
              · have := hH2 c h1
                omega
            · intro c hc
              show 0 < c.2.2
              rcases List.mem_cons.mp hc with h1 | h1
              · subst h1
                exact Nat.succ_pos _
              · exact hH3 c h1
            · intro b
              by_cases hb : b = m₃.heap.fresh
              · subst hb
                rw [Heap.rcD_mk_cons_self, occEnt, hR3fst]
                simp only [List.map_append, List.count_append]
                rw [fresh_count_fwd hwf, fresh_count_rev hwf]
                simp [List.count_singleton']
              · rw [Heap.rcD_mk_cons_ne hb,
                  Heap.rcD_mk_fresh_irrel (g := m₃.heap.fresh)]
                have hrceq : (Heap.mk m₃.heap.cells m₃.heap.fresh : Heap T).rcD b =
                    m₃.heap.rcD b := rfl
                rw [hrceq, hH4 b, occEnt, occEnt, hR3fst]
                simp only [List.map_append, List.count_append]
                have h1 : ((([(m₁.next_id, m₃.heap.fresh)] : List (ID × Nat)).map
                    Prod.snd).count b) = 0 := by
                  simp only [List.map_cons, List.map_nil, List.count_singleton']
                  simp only [ite_eq_right_iff]
                  intro h
                  exact absurd h.symm hb
                rw [h1]
                omega

omit [DecidableEq T] in
theorem count_map_append_cons {A B : Type} [DecidableEq B] (g : A → B)
    (l₁ l₂ : List A) (a : A) (c : B) :
    ((l₁ ++ a :: l₂).map g).count c =
      ((l₁ ++ l₂).map g).count c + (if g a = c then 1 else 0) := by
  simp only [List.map_append, List.map_cons, List.count_append, List.count_cons]
  by_cases h : g a = c
  · simp [h]
    omega
  · have h2 : (g a == c) = false := by
      simp [h]
    simp [h, h2]

theorem delete_agree (hg : Good m₁ m₃) (x : T) :
    ∃ ok w n₁ n₃, m₁.delete x = (ok, n₁, w) ∧ m₃.delete x = (ok, n₃, w) ∧
      Good n₁ n₃ ∧ n₁.next_id = m₁.next_id ∧ n₃.next_id = m₃.next_id := by
  have hgid := get_id_agree hg x
  obtain ⟨hinv, hrel, hwf⟩ := hg
  obtain ⟨hA1, hA2, hA3, hA4, hA5, hA6⟩ := hinv
  obtain ⟨hnid, hfwd, hrev⟩ := hrel
  have hH1 := hwf.1
  have hH2 := hwf.2.1
  have hH3 := hwf.2.2.1
  have hH4 := hwf.2.2.2
  cases hx : m₁.get_id x with
  | none =>
      have hx3 : m₃.get_id x = none := by rw [← hgid]; exact hx
      refine ⟨false, ["Warning: tried to delete nonexistent item"], m₁, m₃, ?_, ?_,
        ⟨⟨hA1, hA2, hA3, hA4, hA5, hA6⟩, ⟨hnid, hfwd, hrev⟩, hwf⟩, rfl, rfl⟩
      · simp only [IDManager1.delete]
        rw [hx]
      · simp only [IDManager3.delete]
        rw [hx3]
  | some i₀ =>
      have hx3 : m₃.get_id x = some i₀ := by rw [← hgid]; exact hx
      have hxlook : alLookup (fun y => decide (y = x)) m₁.item_to_id = some i₀ := hx
      have hxmem : (x, i₀) ∈ m₁.item_to_id := mem_of_alLookup_eq_some hxlook
      have hfwdmem : (i₀, x) ∈ m₁.id_to_item := hA6 (x, i₀) hxmem
      have hflook : alLookup (fun j => decide (j = i₀)) m₁.id_to_item = some x :=
        alLookup_of_mem_of_nodup hfwdmem hA1
      -- relational removal from the forward maps
      have hfpq : ∀ (e : ID × T) (f : ID × Nat), FwdR m₃.heap e f →
          (fun j => decide (j = i₀)) e.1 = (fun j => decide (j = i₀)) f.1 := by
        intro e f hS
        simp only
        rw [hS.1]
      rcases alRemove_rel (p := fun j => decide (j = i₀))
          (q := fun j => decide (j = i₀)) hfpq hfwd with
        ⟨hn1, -⟩ | ⟨e₀, f₀, hS₀, hp₀, hr1, hr3, hfrest⟩
      · exfalso
        have h1 : (alRemove (fun j => decide (j = i₀)) m₁.id_to_item).1 = none := by
          rw [hn1]
        have h2 := alRemove_fst_isSome (p := fun j => decide (j = i₀))
          (l := m₁.id_to_item)
        rw [h1, hflook] at h2
        simp at h2
      have he₀ : e₀ = (i₀, x) := by
        obtain ⟨hmemf1, hpf1, -⟩ := alRemove_found_decomp hr1
        have h1 : e₀.1 = i₀ := by simpa using hpf1
        have h2 : e₀.2 = x := key_unique hA1 (h1 ▸ hmemf1) hfwdmem
        exact Prod.ext h1 h2
      obtain ⟨hmemf3, -, v₁, v₂, hdecF3, hrestF3, -⟩ := alRemove_found_decomp hr3
      obtain ⟨hmemf1, -, u₁, u₂, hdecF1, hrestF1, -⟩ := alRemove_found_decomp hr1
      -- dereferences through the midpoint heap agree on all reverse keys
      have hget1 : ∀ f ∈ m₃.item_to_id,
          (m₃.heap.decr f₀.2).get f.1 = m₃.heap.get f.1 := by
        intro f hf
        by_cases hfa : f.1 = f₀.2
        · have hc1 : 0 < (m₃.id_to_item.map Prod.snd).count f₀.2 :=
            List.count_pos_iff.mpr (List.mem_map_of_mem Prod.snd hmemf3)
          have hc2 : 0 < (m₃.item_to_id.map Prod.fst).count f₀.2 :=
            List.count_pos_iff.mpr (hfa ▸ List.mem_map_of_mem Prod.fst hf)
          have hrc2 : 2 ≤ m₃.heap.rcD f₀.2 := by
            rw [hH4, occEnt]
            omega
          rw [hfa, Heap.get_decr_self hH1 hrc2]
        · rw [Heap.get_decr_ne hfa]
      have hrev' : List.Forall₂ (fun (e : T × ID) (f : Nat × ID) =>
          RevR m₃.heap e f ∧ (m₃.heap.decr f₀.2).get f.1 = m₃.heap.get f.1)
          m₁.item_to_id m₃.item_to_id :=
        forall₂_imp_mem hrev (fun e f _ hf hS => ⟨hS, hget1 f hf⟩)
      have hrpq : ∀ (e : T × ID) (f : Nat × ID),
          (RevR m₃.heap e f ∧ (m₃.heap.decr f₀.2).get f.1 = m₃.heap.get f.1) →
          (fun y => decide (y = x)) e.1 =
          (fun b => decide ((m₃.heap.decr f₀.2).get b = some x)) f.1 := by
        intro e f hS
        simp only
        rw [hS.2, hS.1.1]
        exact decide_eq_decide.mpr (by simp)
      rcases alRemove_rel (p := fun y => decide (y = x))
          (q := fun b => decide ((m₃.heap.decr f₀.2).get b = some x)) hrpq hrev' with
        ⟨hn1, -⟩ | ⟨e₁, f₁, hS₁, hp₁, hs1, hs3, hrrest⟩
      · exfalso
        have h1 : (alRemove (fun y => decide (y = x)) m₁.item_to_id).1 = none := by
          rw [hn1]
        have h2 := alRemove_fst_isSome (p := fun y => decide (y = x))
          (l := m₁.item_to_id)
        rw [h1, hxlook] at h2
        simp at h2
      have he₁ : e₁ = (x, i₀) := by
        obtain ⟨hmemr1, hpr1, -⟩ := alRemove_found_decomp hs1
        have h1 : e₁.1 = x := by simpa using hpr1
        have h2 : e₁.2 = i₀ := key_unique hA2 (h1 ▸ hmemr1) hxmem
        exact Prod.ext h1 h2
      obtain ⟨hmemr3, -, z₁, z₂, hdecR3, hrestR3, -⟩ := alRemove_found_decomp hs3
      obtain ⟨hmemr1, -, w₁, w₂, hdecR1, hrestR1, -⟩ := alRemove_found_decomp hs1
      -- counting: one handle was dropped from each index
      have hcntF : ∀ c : Nat, (m₃.id_to_item.map Prod.snd).count c =
          (((alRemove (fun j => decide (j = i₀)) m₃.id_to_item).2.map
            Prod.snd).count c) + (if f₀.2 = c then 1 else 0) := by
        intro c
        rw [hrestF3, hdecF3]
        exact count_map_append_cons Prod.snd v₁ v₂ f₀ c
      have hcntR : ∀ c : Nat, (m₃.item_to_id.map Prod.fst).count c =
          (((alRemove (fun b => decide ((m₃.heap.decr f₀.2).get b = some x))
            m₃.item_to_id).2.map Prod.fst).count c) + (if f₁.1 = c then 1 else 0) := by
        intro c
        rw [hrestR3, hdecR3]
        exact count_map_append_cons Prod.fst z₁ z₂ f₁ c
      have hnd1 : ((m₃.heap.decr f₀.2).cells.map Prod.fst).Nodup := Heap.decr_nodup hH1
      -- the reference count of every address drops by its removed occurrences
      have hrcD2 : ∀ c, ((m₃.heap.decr f₀.2).decr f₁.1).rcD c =
          occEnt (alRemove (fun j => decide (j = i₀)) m₃.id_to_item).2
            (alRemove (fun b => decide ((m₃.heap.decr f₀.2).get b = some x))
              m₃.item_to_id).2 c := by
        intro c
        have horig := hH4 c
        rw [occEnt] at horig
        have h1 := hcntF c
        have h2 := hcntR c
        rw [occEnt]
        by_cases hca : c = f₀.2
        · by_cases hcb : c = f₁.1
          · have e1 : ((m₃.heap.decr f₀.2).decr f₁.1).rcD c =
                (m₃.heap.decr f₀.2).rcD c - 1 := by
              rw [hcb]
              exact Heap.rcD_decr_self hnd1
            have e2 : (m₃.heap.decr f₀.2).rcD c = m₃.heap.rcD c - 1 := by
              rw [hca]
              exact Heap.rcD_decr_self hH1
            have i1 : (if f₀.2 = c then 1 else 0) = 1 := if_pos hca.symm
            have i2 : (if f₁.1 = c then 1 else 0) = 1 := if_pos hcb.symm
            rw [i1] at h1
            rw [i2] at h2
            omega
          · have e1 : ((m₃.heap.decr f₀.2).decr f₁.1).rcD c =
                (m₃.heap.decr f₀.2).rcD c := Heap.rcD_decr_ne hcb
            have e2 : (m₃.heap.decr f₀.2).rcD c = m₃.heap.rcD c - 1 := by
              rw [hca]
              exact Heap.rcD_decr_self hH1
            have i1 : (if f₀.2 = c then 1 else 0) = 1 := if_pos hca.symm
            have i2 : (if f₁.1 = c then 1 else 0) = 0 := if_neg (fun h => hcb h.symm)
            rw [i1] at h1
            rw [i2] at h2
            omega
        · by_cases hcb : c = f₁.1
          · have e1 : ((m₃.heap.decr f₀.2).decr f₁.1).rcD c =
                (m₃.heap.decr f₀.2).rcD c - 1 := by
              rw [hcb]
              exact Heap.rcD_decr_self hnd1
            have e2 : (m₃.heap.decr f₀.2).rcD c = m₃.heap.rcD c :=
              Heap.rcD_decr_ne hca
            have i1 : (if f₀.2 = c then 1 else 0) = 0 := if_neg (fun h => hca h.symm)
            have i2 : (if f₁.1 = c then 1 else 0) = 1 := if_pos hcb.symm
            rw [i1] at h1
            rw [i2] at h2
            omega
          · have e1 : ((m₃.heap.decr f₀.2).decr f₁.1).rcD c =
                (m₃.heap.decr f₀.2).rcD c := Heap.rcD_decr_ne hcb
            have e2 : (m₃.heap.decr f₀.2).rcD c = m₃.heap.rcD c :=
              Heap.rcD_decr_ne hca
            have i1 : (if f₀.2 = c then 1 else 0) = 0 := if_neg (fun h => hca h.symm)
            have i2 : (if f₁.1 = c then 1 else 0) = 0 := if_neg (fun h => hcb h.symm)
            rw [i1] at h1
            rw [i2] at h2
            omega
      -- dereference stability for every address still referenced
      have hget2 : ∀ c, 0 < occEnt (alRemove (fun j => decide (j = i₀))
            m₃.id_to_item).2
            (alRemove (fun b => decide ((m₃.heap.decr f₀.2).get b = some x))
              m₃.item_to_id).2 c →
          ((m₃.heap.decr f₀.2).decr f₁.1).get c = m₃.heap.get c := by
        intro c hocc
        rw [occEnt] at hocc
        have horig := hH4 c
        rw [occEnt] at horig
        have h1 := hcntF c
        have h2 := hcntR c
        by_cases hca : c = f₀.2
        · by_cases hcb : c = f₁.1
          · have i1 : (if f₀.2 = c then 1 else 0) = 1 := if_pos hca.symm
            have i2 : (if f₁.1 = c then 1 else 0) = 1 := if_pos hcb.symm
            rw [i1] at h1
            rw [i2] at h2
            have hge1 : 2 ≤ m₃.heap.rcD c := by omega
            have e2 : (m₃.heap.decr f₀.2).rcD c = m₃.heap.rcD c - 1 := by
              rw [hca]
              exact Heap.rcD_decr_self hH1
            have hge2 : 2 ≤ (m₃.heap.decr f₀.2).rcD c := by omega
            have g1 : ((m₃.heap.decr f₀.2).decr f₁.1).get c =
                (m₃.heap.decr f₀.2).get c := by
              rw [hcb]
              refine Heap.get_decr_self hnd1 ?_
              rw [← hcb]
              exact hge2
            have g2 : (m₃.heap.decr f₀.2).get c = m₃.heap.get c := by
              rw [hca]
              refine Heap.get_decr_self hH1 ?_
              rw [← hca]
              exact hge1
            rw [g1, g2]
          · have i1 : (if f₀.2 = c then 1 else 0) = 1 := if_pos hca.symm
            have i2 : (if f₁.1 = c then 1 else 0) = 0 := if_neg (fun h => hcb h.symm)
            rw [i1] at h1
            rw [i2] at h2
            have hge1 : 2 ≤ m₃.heap.rcD c := by omega
            have g1 : ((m₃.heap.decr f₀.2).decr f₁.1).get c =
                (m₃.heap.decr f₀.2).get c := Heap.get_decr_ne hcb
            have g2 : (m₃.heap.decr f₀.2).get c = m₃.heap.get c := by
              rw [hca]
              refine Heap.get_decr_self hH1 ?_
              rw [← hca]
              exact hge1
            rw [g1, g2]
        · by_cases hcb : c = f₁.1
          · have i1 : (if f₀.2 = c then 1 else 0) = 0 := if_neg (fun h => hca h.symm)
            have i2 : (if f₁.1 = c then 1 else 0) = 1 := if_pos hcb.symm
            rw [i1] at h1
            rw [i2] at h2
            have hge1 : 2 ≤ m₃.heap.rcD c := by omega
            have e1 : (m₃.heap.decr f₀.2).rcD c = m₃.heap.rcD c :=
              Heap.rcD_decr_ne hca
            have hge2 : 2 ≤ (m₃.heap.decr f₀.2).rcD c := by omega
            have g1 : ((m₃.heap.decr f₀.2).decr f₁.1).get c =
                (m₃.heap.decr f₀.2).get c := by
              rw [hcb]
              refine Heap.get_decr_self hnd1 ?_
              rw [← hcb]
              exact hge2
            have g2 : (m₃.heap.decr f₀.2).get c = m₃.heap.get c :=
              Heap.get_decr_ne hca
            rw [g1, g2]
          · have g1 : ((m₃.heap.decr f₀.2).decr f₁.1).get c =
                (m₃.heap.decr f₀.2).get c := Heap.get_decr_ne hcb
            have g2 : (m₃.heap.decr f₀.2).get c = m₃.heap.get c :=
              Heap.get_decr_ne hca
            rw [g1, g2]
      -- membership of the removed lists in the original ones
      have hsubF : (alRemove (fun j => decide (j = i₀)) m₁.id_to_item).2.Sublist
          m₁.id_to_item := by
        rw [hrestF1, hdecF1]
        exact (List.sublist_cons_self e₀ u₂).append_left u₁
      have hsubR : (alRemove (fun y => decide (y = x)) m₁.item_to_id).2.Sublist
          m₁.item_to_id := by
        rw [hrestR1, hdecR1]
        exact (List.sublist_cons_self e₁ w₂).append_left w₁
      refine ⟨true, [],
        ⟨m₁.next_id, (alRemove (fun j => decide (j = i₀)) m₁.id_to_item).2,
          (alRemove (fun y => decide (y = x)) m₁.item_to_id).2⟩,
        ⟨m₃.next_id, (alRemove (fun j => decide (j = i₀)) m₃.id_to_item).2,
          (alRemove (fun b => decide ((m₃.heap.decr f₀.2).get b = some x))
            m₃.item_to_id).2,
          (m₃.heap.decr f₀.2).decr f₁.1⟩, ?_, ?_, ?_, rfl, rfl⟩
      · simp only [IDManager1.delete]
        rw [hx]
      · have hdel3 : m₃.delete x = (true,
            ⟨m₃.next_id, (alRemove (fun j => decide (j = i₀)) m₃.id_to_item).2,
              (alRemove (fun b => decide ((m₃.heap.dropOpt ((alRemove
                (fun j => decide (j = i₀)) m₃.id_to_item).1.map Prod.snd)).get b =
                some x)) m₃.item_to_id).2,
              (m₃.heap.dropOpt ((alRemove (fun j => decide (j = i₀))
                m₃.id_to_item).1.map Prod.snd)).dropOpt ((alRemove
                (fun b => decide ((m₃.heap.dropOpt ((alRemove
                  (fun j => decide (j = i₀)) m₃.id_to_item).1.map Prod.snd)).get b =
                  some x)) m₃.item_to_id).1.map Prod.fst)⟩, []) := by
          simp only [IDManager3.delete]
          rw [hx3]
        rw [hdel3]
        have e1 : (alRemove (fun j => decide (j = i₀)) m₃.id_to_item).1.map
            Prod.snd = some f₀.2 := by
          rw [hr3]
          rfl
        rw [e1]
        have e2 : m₃.heap.dropOpt (some f₀.2) = m₃.heap.decr f₀.2 := rfl
        rw [e2]
        have e3 : (alRemove (fun b => decide ((m₃.heap.decr f₀.2).get b = some x))
            m₃.item_to_id).1.map Prod.fst = some f₁.1 := by
          rw [hs3]
          rfl
        rw [e3]
        have e4 : (m₃.heap.decr f₀.2).dropOpt (some f₁.1) =
            (m₃.heap.decr f₀.2).decr f₁.1 := rfl
        rw [e4]
      · -- the combined invariant for the shrunken states
        have hkeysnd : ((m₁.id_to_item.map Prod.fst)).Nodup := hA1
        refine ⟨⟨?_, ?_, ?_, ?_, ?_, ?_⟩, ⟨hnid, ?_, ?_⟩, ?_, ?_, ?_, hrcD2⟩
        · exact (hsubF.map Prod.fst).nodup hA1
        · exact (hsubR.map Prod.fst).nodup hA2
        · intro e he
          exact hA3 e (hsubF.subset he)
        · intro e he
          exact hA4 e (hsubR.subset he)
        · exact (hsubR.map Prod.snd).nodup hA5
        · intro e he
          have hmem := hA6 e (hsubR.subset he)
          -- the entry still present cannot be the removed one
          have hne : e.1 ≠ x := by
            intro hEq
            have hxnotin : x ∉ (w₁ ++ w₂).map Prod.fst := by
              have hnodup : ((w₁ ++ e₁ :: w₂).map Prod.fst).Nodup := by
                rw [← hdecR1]; exact hA2
              rw [he₁] at hnodup
              simp only [List.map_append, List.map_cons] at hnodup
              rw [List.nodup_append] at hnodup
              obtain ⟨hw1, hw2, hdisj⟩ := hnodup
              rw [List.nodup_cons] at hw2
              intro hmemx
              rw [List.map_append, List.mem_append] at hmemx
              rcases hmemx with hmx | hmx
              · exact hdisj hmx (by simp)
              · exact hw2.1 hmx
            have : e.1 ∈ (w₁ ++ w₂).map Prod.fst := by
              rw [← hrestR1]
              exact List.mem_map_of_mem Prod.fst he
            rw [hEq] at this
            exact hxnotin this
          have hneq : (e.2, e.1) ≠ e₀ := by
            rw [he₀]
            intro hEq
            exact hne (congrArg Prod.snd hEq)
          rw [hrestF1]
          rw [hdecF1] at hmem
          rcases List.mem_append.mp hmem with h1 | h1
          · exact List.mem_append_left _ h1
          · rcases List.mem_cons.mp h1 with h2 | h2
            · exact absurd h2 hneq
            · exact List.mem_append_right _ h2
        · -- forward correspondence through the final heap
          refine forall₂_imp_mem hfrest (fun e f _ hf hS => ⟨hS.1, ?_⟩)
          have hocc : 0 < occEnt (alRemove (fun j => decide (j = i₀))
              m₃.id_to_item).2
              (alRemove (fun b => decide ((m₃.heap.decr f₀.2).get b = some x))
                m₃.item_to_id).2 f.2 := by
            rw [occEnt]
            have : 0 < ((alRemove (fun j => decide (j = i₀))
                m₃.id_to_item).2.map Prod.snd).count f.2 :=
              List.count_pos_iff.mpr (List.mem_map_of_mem Prod.snd hf)
            omega
          rw [hget2 f.2 hocc]
          exact hS.2
        · -- reverse correspondence through the final heap
          refine forall₂_imp_mem hrrest (fun e f _ hf hS => ⟨?_, hS.1.2⟩)
          have hocc : 0 < occEnt (alRemove (fun j => decide (j = i₀))
              m₃.id_to_item).2
              (alRemove (fun b => decide ((m₃.heap.decr f₀.2).get b = some x))
                m₃.item_to_id).2 f.1 := by
            rw [occEnt]
            have : 0 < ((alRemove (fun b => decide ((m₃.heap.decr f₀.2).get b =
                some x)) m₃.item_to_id).2.map Prod.fst).count f.1 :=
              List.count_pos_iff.mpr (List.mem_map_of_mem Prod.fst hf)
            omega
          rw [hget2 f.1 hocc]
          exact hS.1.1
        · exact Heap.decr_nodup hnd1
        · intro c hc
          have hc1 : c.1 ∈ ((m₃.heap.decr f₀.2).decr f₁.1).cells.map Prod.fst :=
            List.mem_map_of_mem Prod.fst hc
          have hc2 := Heap.decr_keys_subset (Heap.decr_keys_subset hc1)
          obtain ⟨d, hd, hdfst⟩ := List.mem_map.mp hc2
          have := hH2 d hd
          rw [hdfst] at this
          exact this
        · exact Heap.decr_pos (Heap.decr_pos hH3)

theorem runOp_agree (hg : Good m₁ m₃) (op : Op T) :
    (m₁.runOp op = none ∧ m₃.runOp op = none) ∨
    (∃ o n₁ n₃, m₁.runOp op = some (o, n₁) ∧ m₃.runOp op = some (o, n₃) ∧
      Good n₁ n₃) := by
  cases op with
  | insert x =>
      rcases insert_agree hg x with ⟨h1, h3⟩ | ⟨n₁, n₃, h1, h3, -, hgood⟩
      · left
        constructor
        · simp only [IDManager1.runOp, h1, Option.map_none']
        · simp only [IDManager3.runOp, h3, Option.map_none']
      · right
        exact ⟨.issued m₁.next_id, n₁, n₃,
          by simp only [IDManager1.runOp, h1, Option.map_some'],
          by simp only [IDManager3.runOp, h3, Option.map_some'], hgood⟩
  | delete x =>
      obtain ⟨ok, w, n₁, n₃, h1, h3, hgood, -, -⟩ := delete_agree hg x
      right
      refine ⟨.removed ok w, n₁, n₃, ?_, ?_, hgood⟩
      · simp only [IDManager1.runOp, h1]
      · simp only [IDManager3.runOp, h3]
  | get_id x =>
      right
      exact ⟨.foundId (m₁.get_id x), m₁, m₃, rfl,
        by simp only [IDManager3.runOp, ← get_id_agree hg x], hg⟩
  | get_item i =>
      right
      exact ⟨.foundItem (m₁.get_item i), m₁, m₃, rfl,
        by simp only [IDManager3.runOp, ← get_item_agree hg i], hg⟩

end Agreement

section RunLemmas

variable {T : Type} [DecidableEq T]

theorem run_agree {m₁ : IDManager1 T} {m₃ : IDManager3 T} (hg : Good m₁ m₃)
    (ops : List (Op T)) :
    (m₁.run ops = none ∧ m₃.run ops = none) ∨
    (∃ outs n₁ n₃, m₁.run ops = some (outs, n₁) ∧ m₃.run ops = some (outs, n₃) ∧
      Good n₁ n₃) := by
  induction ops generalizing m₁ m₃ with
  | nil => exact Or.inr ⟨[], m₁, m₃, rfl, rfl, hg⟩
  | cons op rest ih =>
      rcases runOp_agree hg op with ⟨h1, h3⟩ | ⟨o, n₁, n₃, h1, h3, hgood⟩
      · left
        constructor
        · simp only [IDManager1.run]
          rw [h1]
        · simp only [IDManager3.run]
          rw [h3]
      · have hrun1 : m₁.run (op :: rest) =
            (n₁.run rest).map (fun p => (o :: p.1, p.2)) := by
          simp only [IDManager1.run]
          rw [h1]
        have hrun3 : m₃.run (op :: rest) =
            (n₃.run rest).map (fun p => (o :: p.1, p.2)) := by
          simp only [IDManager3.run]
          rw [h3]
        rcases ih hgood with ⟨hr1, hr3⟩ | ⟨outs, k₁, k₃, hr1, hr3, hk⟩
        · left
          rw [hrun1, hrun3, hr1, hr3]
          exact ⟨rfl, rfl⟩
        · right
          exact ⟨o :: outs, k₁, k₃, by rw [hrun1, hr1]; rfl,
            by rw [hrun3, hr3]; rfl, hk⟩

theorem good_new : Good (IDManager1.new T) (IDManager3.new T) := by
  refine ⟨⟨?_, ?_, ?_, ?_, ?_, ?_⟩, ⟨rfl, List.Forall₂.nil, List.Forall₂.nil⟩,
    ?_, ?_, ?_, ?_⟩
  · simp [IDManager1.new]
  · simp [IDManager1.new]
  · intro e he; cases he
  · intro e he; cases he
  · simp [IDManager1.new]
  · intro e he; cases he
  · simp [IDManager3.new]
  · intro c hc; cases hc
  · intro c hc; cases hc
  · intro a; rfl

theorem reach_good {ops : List (Op T)} {outs : List (Out T)} {m₃ : IDManager3 T}
    (h : IDManager3.run (IDManager3.new T) ops = some (outs, m₃)) :
    ∃ m₁, IDManager1.run (IDManager1.new T) ops = some (outs, m₁) ∧ Good m₁ m₃ := by
  rcases run_agree good_new ops with ⟨-, h3⟩ | ⟨outs2, n₁, n₃, h1, h3, hg⟩
  · rw [h] at h3
    cases h3
  · rw [h] at h3
    obtain ⟨ho, hm⟩ := Prod.mk.injEq .. ▸ Option.some.inj h3
    subst ho
    subst hm
    exact ⟨n₁, h1, hg⟩

end RunLemmas

/-! ### Shape lemmas for the individual operations -/

section ShapeLemmas

variable {K V T : Type} [DecidableEq T] {p : K → Bool}

theorem alLookup_append_cons_of_false {l₁ l₂ : List (K × V)} {k₀ : K} {v₀ : V}
    (h : p k₀ = false) :
    alLookup p (l₁ ++ (k₀, v₀) :: l₂) = alLookup p (l₁ ++ l₂) := by
  induction l₁ with
  | nil => simp [alLookup, h]
  | cons e rest ih =>
      obtain ⟨k, v⟩ := e
      by_cases hk : p k = true
      · simp [alLookup, hk]
      · simp only [Bool.not_eq_true] at hk
        simp [alLookup, hk, ih]

theorem alFindKey_append_of_forall_false {l₁ l₂ : List (K × V)}
    (h : ∀ e ∈ l₁, p e.1 = false) :
    alFindKey p (l₁ ++ l₂) = alFindKey p l₂ := by
  induction l₁ with
  | nil => simp
  | cons e rest ih =>
      have he : p e.1 = false := h e (by simp)
      simp only [List.cons_append, alFindKey, he, Bool.false_eq_true, if_false]
      exact ih fun f hf => h f (by simp [hf])

theorem insert1_spec {m : IDManager1 T} {x : T} {i : ID} {n : IDManager1 T}
    (h : m.insert x = some (i, n)) :
    i = m.next_id ∧ n.next_id.val = m.next_id.val + 1 ∧
    n.id_to_item = (alInsert (fun j => decide (j = m.next_id)) m.next_id x
      m.id_to_item).2 ∧
    n.item_to_id = (alInsert (fun y => decide (y = x)) x m.next_id
      m.item_to_id).2 := by
  cases hstep : m.next_id.step with
  | none =>
      simp only [IDManager1.insert] at h
      rw [hstep] at h
      cases h
  | some nid =>
      simp only [IDManager1.insert] at h
      rw [hstep] at h
      obtain ⟨hi, hn⟩ := Prod.mk.injEq .. ▸ Option.some.inj h
      have hv := ID.step_some hstep
      subst hi
      subst hn
      exact ⟨rfl, hv.1, rfl, rfl⟩

theorem insert1_none {m : IDManager1 T} {x : T}
    (h : m.insert x = none) : m.next_id.step = none := by
  cases hstep : m.next_id.step with
  | none => rfl
  | some nid =>
      simp only [IDManager1.insert] at h
      rw [hstep] at h
      cases h

theorem insert3_spec {m : IDManager3 T} {x : T} {i : ID} {n : IDManager3 T}
    (h : m.insert x = some (i, n)) :
    i = m.next_id ∧ n.next_id.val = m.next_id.val + 1 := by
  cases hstep : m.next_id.step with
  | none =>
      simp only [IDManager3.insert] at h
      rw [hstep] at h
      cases h
  | some nid =>
      simp only [IDManager3.insert] at h
      rw [hstep] at h
      obtain ⟨hi, hn⟩ := Prod.mk.injEq .. ▸ Option.some.inj h
      have hv := ID.step_some hstep
      subst hi
      subst hn
      exact ⟨rfl, hv.1⟩

theorem delete1_some {m : IDManager1 T} {x : T} {i : ID}
    (h : m.get_id x = some i) :
    m.delete x = (true, ⟨m.next_id,
      (alRemove (fun j => decide (j = i)) m.id_to_item).2,
      (alRemove (fun y => decide (y = x)) m.item_to_id).2⟩, []) := by
  simp only [IDManager1.delete]
  rw [h]

theorem delete1_none {m : IDManager1 T} {x : T}
    (h : m.get_id x = none) :
    m.delete x = (false, m, ["Warning: tried to delete nonexistent item"]) := by
  simp only [IDManager1.delete]
  rw [h]

theorem delete3_none {m : IDManager3 T} {x : T}
    (h : m.get_id x = none) :
    m.delete x = (false, m, ["Warning: tried to delete nonexistent item"]) := by
  simp only [IDManager3.delete]
  rw [h]

theorem delete3_next_id {m : IDManager3 T} {x : T} :
    (m.delete x).2.1.next_id = m.next_id := by
  cases h : m.get_id x with
  | none => rw [delete3_none h]
  | some i =>
      simp only [IDManager3.delete]
      rw [h]

theorem runOp3_next_id_mono {m n : IDManager3 T} {op : Op T} {o : Out T}
    (h : m.runOp op = some (o, n)) : m.next_id.val ≤ n.next_id.val := by
  cases op with
  | insert x =>
      simp only [IDManager3.runOp] at h
      cases hins : m.insert x with
      | none => rw [hins] at h; cases h
      | some r =>
          rw [hins] at h
          simp only [Option.map_some'] at h
          obtain ⟨-, hn⟩ := Prod.mk.injEq .. ▸ Option.some.inj h
          subst hn
          have := (insert3_spec hins).2
          omega
  | delete x =>
      simp only [IDManager3.runOp] at h
      obtain ⟨-, hn⟩ := Prod.mk.injEq .. ▸ Option.some.inj h
      subst hn
      rw [delete3_next_id]
  | get_id x =>
      simp only [IDManager3.runOp] at h
      obtain ⟨-, hn⟩ := Prod.mk.injEq .. ▸ Option.some.inj h
      subst hn
      exact le_refl _
  | get_item i =>
      simp only [IDManager3.runOp] at h
      obtain ⟨-, hn⟩ := Prod.mk.injEq .. ▸ Option.some.inj h
      subst hn
      exact le_refl _

theorem run3_cons_some {m : IDManager3 T} {op : Op T} {rest : List (Op T)}
    {outs : List (Out T)} {n : IDManager3 T}
    (h : m.run (op :: rest) = some (outs, n)) :
    ∃ o k outs2, m.runOp op = some (o, k) ∧ k.run rest = some (outs2, n) ∧
      outs = o :: outs2 := by
  simp only [IDManager3.run] at h
  cases hop : m.runOp op with
  | none => rw [hop] at h; cases h
  | some r =>
      rw [hop] at h
      obtain ⟨o, k⟩ := r
      simp only at h
      cases hrest : k.run rest with
      | none => rw [hrest] at h; cases h
      | some q =>
          rw [hrest] at h
          simp only [Option.map_some'] at h
          obtain ⟨ho, hn⟩ := Prod.mk.injEq .. ▸ Option.some.inj h
          exact ⟨o, k, q.1, rfl, by rw [hrest, ← hn], ho.symm⟩

theorem run3_next_id_mono {m n : IDManager3 T} {ops : List (Op T)}
    {outs : List (Out T)}
    (h : m.run ops = some (outs, n)) : m.next_id.val ≤ n.next_id.val := by
  induction ops generalizing m outs with
  | nil =>
      obtain ⟨-, hn⟩ := Prod.mk.injEq .. ▸ Option.some.inj h
      subst hn
      exact le_refl _
  | cons op rest ih =>
      obtain ⟨o, k, outs2, hop, hrest, -⟩ := run3_cons_some h
      exact le_trans (runOp3_next_id_mono hop) (ih hrest)

end ShapeLemmas

/-! ### The bijection invariant under safe histories -/

section BijLemmas

variable {K V T : Type} [DecidableEq T]

theorem not_mem_removed {l₁ l₂ : List (K × V)} {e : K × V}
    (hnd : (((l₁ ++ e :: l₂).map Prod.fst)).Nodup) :
    ∀ d, d ∈ l₁ ++ l₂ → d.1 ≠ e.1 := by
  intro d hd hEq
  rw [List.map_append, List.map_cons, List.nodup_append] at hnd
  obtain ⟨h1, h2, hdisj⟩ := hnd
  rw [List.nodup_cons] at h2
  rcases List.mem_append.mp hd with hm | hm
  · exact hdisj (List.mem_map_of_mem Prod.fst hm) (by simp [hEq])
  · exact h2.1 (hEq ▸ List.mem_map_of_mem Prod.fst hm)

theorem mem_removed_iff {l₁ l₂ : List (K × V)} {e d : K × V}
    (hnd : (((l₁ ++ e :: l₂).map Prod.fst)).Nodup) :
    d ∈ l₁ ++ l₂ ↔ (d ∈ l₁ ++ e :: l₂ ∧ d ≠ e) := by
  constructor
  · intro hd
    refine ⟨?_, ?_⟩
    · rcases List.mem_append.mp hd with hm | hm
      · exact List.mem_append_left _ hm
      · exact List.mem_append_right _ (by simp [hm])
    · intro hEq
      exact not_mem_removed hnd d hd (by rw [hEq])
  · rintro ⟨hd, hne⟩
    rcases List.mem_append.mp hd with hm | hm
    · exact List.mem_append_left _ hm
    · rcases List.mem_cons.mp hm with h2 | h2
      · exact absurd h2 hne
      · exact List.mem_append_right _ h2

theorem bij_new : Bij1 (IDManager1.new T) := by
  intro i v
  simp [IDManager1.new]

theorem bij_insert_fresh {m : IDManager1 T} (hinv : Inv1 m) (hb : Bij1 m)
    {x : T} {i : ID} {n : IDManager1 T}
    (hnone : m.get_id x = none) (h : m.insert x = some (i, n)) : Bij1 n := by
  obtain ⟨hA1, hA2, hA3, hA4, hA5, hA6⟩ := hinv
  obtain ⟨-, -, hF, hR⟩ := insert1_spec h
  have hpF : ∀ e ∈ m.id_to_item, (fun j => decide (j = m.next_id)) e.1 = false := by
    intro e he
    have hbound := hA3 e he
    simp only [decide_eq_false_iff_not]
    intro hEq
    rw [hEq] at hbound
    exact lt_irrefl _ hbound
  have hpR : ∀ e ∈ m.item_to_id, (fun y => decide (y = x)) e.1 = false := by
    rw [IDManager1.get_id] at hnone
    exact alLookup_eq_none.mp hnone
  rw [alInsert_of_forall_false (p := fun j => decide (j = m.next_id)) hpF] at hF
  rw [alInsert_of_forall_false (p := fun y => decide (y = x)) hpR] at hR
  intro j y
  rw [hF, hR]
  simp only [List.mem_append, List.mem_singleton]
  constructor
  · rintro (hm | hm)
    · exact Or.inl ((hb j y).mp hm)
    · obtain ⟨h1, h2⟩ := Prod.mk.injEq .. ▸ hm
      exact Or.inr (by rw [h1, h2])
  · rintro (hm | hm)
    · exact Or.inl ((hb j y).mpr hm)
    · obtain ⟨h1, h2⟩ := Prod.mk.injEq .. ▸ hm
      exact Or.inr (by rw [h1, h2])

theorem bij_delete {m : IDManager1 T} (hinv : Inv1 m) (hb : Bij1 m) (x : T) :
    Bij1 (m.delete x).2.1 := by
  obtain ⟨hA1, hA2, hA3, hA4, hA5, hA6⟩ := hinv
  cases hgid : m.get_id x with
  | none =>
      rw [delete1_none hgid]
      exact hb
  | some i₀ =>
      rw [delete1_some hgid]
      have hxlook : alLookup (fun y => decide (y = x)) m.item_to_id = some i₀ := hgid
      have hxmem : (x, i₀) ∈ m.item_to_id := mem_of_alLookup_eq_some hxlook
      have hfwdmem : (i₀, x) ∈ m.id_to_item := hA6 (x, i₀) hxmem
      have hflook : alLookup (fun j => decide (j = i₀)) m.id_to_item = some x :=
        alLookup_of_mem_of_nodup hfwdmem hA1
      -- forward removal decomposition
      have hfsome : (alRemove (fun j => decide (j = i₀)) m.id_to_item).1.isSome =
          true := by
        rw [alRemove_fst_isSome, hflook]
        rfl
      obtain ⟨ef, hef⟩ := Option.isSome_iff_exists.mp hfsome
      obtain ⟨hmemf, hpf, u₁, u₂, hdecF, hrestF, -⟩ := alRemove_found_decomp hef
      have hef2 : ef = (i₀, x) := by
        have h1 : ef.1 = i₀ := by simpa using hpf
        have h2 : ef.2 = x := key_unique hA1 (h1 ▸ hmemf) hfwdmem
        exact Prod.ext h1 h2
      -- reverse removal decomposition
      have hrsome : (alRemove (fun y => decide (y = x)) m.item_to_id).1.isSome =
          true := by
        rw [alRemove_fst_isSome, hxlook]
        rfl
      obtain ⟨er, her⟩ := Option.isSome_iff_exists.mp hrsome
      obtain ⟨hmemr, hpr, w₁, w₂, hdecR, hrestR, -⟩ := alRemove_found_decomp her
      have her2 : er = (x, i₀) := by
        have h1 : er.1 = x := by simpa using hpr
        have h2 : er.2 = i₀ := key_unique hA2 (h1 ▸ hmemr) hxmem
        exact Prod.ext h1 h2
      intro j y
      show (j, y) ∈ (alRemove (fun j => decide (j = i₀)) m.id_to_item).2 ↔ _
      rw [hrestF, hrestR]
      have hndF : ((u₁ ++ ef :: u₂).map Prod.fst).Nodup := by rw [← hdecF]; exact hA1
      have hndR : ((w₁ ++ er :: w₂).map Prod.fst).Nodup := by rw [← hdecR]; exact hA2
      rw [mem_removed_iff hndF, mem_removed_iff hndR, ← hdecF, ← hdecR, hef2, her2]
      constructor
      · rintro ⟨hm, hne⟩
        refine ⟨(hb j y).mp hm, ?_⟩
        intro hEq
        obtain ⟨h1, h2⟩ := Prod.mk.injEq .. ▸ hEq
        exact hne (by rw [h1, h2])
      · rintro ⟨hm, hne⟩
        refine ⟨(hb j y).mpr hm, ?_⟩
        intro hEq
        obtain ⟨h1, h2⟩ := Prod.mk.injEq .. ▸ hEq
        exact hne (by rw [h1, h2])

theorem bij_runOp {m₁ : IDManager1 T} {m₃ : IDManager3 T} {op : Op T} {o : Out T}
    {k₁ : IDManager1 T} (hg : Good m₁ m₃) (hb : Bij1 m₁)
    (hsafeop : ∀ x, op = Op.insert x → m₃.get_id x = none)
    (h1 : m₁.runOp op = some (o, k₁)) : Bij1 k₁ := by
  cases op with
  | insert x =>
      have hnone : m₁.get_id x = none := by
        rw [get_id_agree hg]
        exact hsafeop x rfl
      simp only [IDManager1.runOp] at h1
      cases hins : m₁.insert x with
      | none => rw [hins] at h1; cases h1
      | some r =>
          rw [hins] at h1
          simp only [Option.map_some'] at h1
          obtain ⟨-, hk⟩ := Prod.mk.injEq .. ▸ Option.some.inj h1
          subst hk
          exact bij_insert_fresh hg.1 hb hnone (by rw [hins])
  | delete x =>
      simp only [IDManager1.runOp] at h1
      obtain ⟨-, hk⟩ := Prod.mk.injEq .. ▸ Option.some.inj h1
      subst hk
      exact bij_delete hg.1 hb x
  | get_id x =>
      simp only [IDManager1.runOp] at h1
      obtain ⟨-, hk⟩ := Prod.mk.injEq .. ▸ Option.some.inj h1
      subst hk
      exact hb
  | get_item i =>
      simp only [IDManager1.runOp] at h1
      obtain ⟨-, hk⟩ := Prod.mk.injEq .. ▸ Option.some.inj h1
      subst hk
      exact hb

end BijLemmas

section SafeRun

variable {T : Type} [DecidableEq T]

theorem safe_run_aux {m₁ : IDManager1 T} {m₃ : IDManager3 T} (hg : Good m₁ m₃)
    (hb : Bij1 m₁) {ops : List (Op T)} {outs : List (Out T)} {n₃ : IDManager3 T}
    (h : m₃.run ops = some (outs, n₃)) (hsafe : m₃.safeOps ops = true) :
    ∃ n₁, m₁.run ops = some (outs, n₁) ∧ Good n₁ n₃ ∧ Bij1 n₁ := by
  induction ops generalizing m₁ m₃ outs with
  | nil =>
      obtain ⟨ho, hn⟩ := Prod.mk.injEq .. ▸ Option.some.inj h
      subst ho
      subst hn
      exact ⟨m₁, rfl, hg, hb⟩
  | cons op rest ih =>
      obtain ⟨o, k₃, outs2, hop, hrest, houts⟩ := run3_cons_some h
      subst houts
      simp only [IDManager3.safeOps, Bool.and_eq_true] at hsafe
      obtain ⟨hc, hrestsafe0⟩ := hsafe
      have hrestsafe : k₃.safeOps rest = true := by
        have heq : (match m₃.runOp op with
            | some r => r.2.safeOps rest
            | none => true) = k₃.safeOps rest := by rw [hop]
        rw [← heq]
        exact hrestsafe0
      have hsafeop : ∀ x, op = Op.insert x → m₃.get_id x = none := by
        intro x hEq
        subst hEq
        exact of_decide_eq_true hc
      rcases runOp_agree hg op with ⟨-, h3⟩ | ⟨o', k₁, k₃', h1, h3, hgood⟩
      · rw [hop] at h3
        cases h3
      · rw [hop] at h3
        obtain ⟨ho', hk'⟩ := Prod.mk.injEq .. ▸ Option.some.inj h3
        subst ho'
        subst hk'
        have hbk := bij_runOp hg hb hsafeop h1
        obtain ⟨n₁, hrun1, hgood2, hb2⟩ := ih hgood hbk hrest hrestsafe
        refine ⟨n₁, ?_, hgood2, hb2⟩
        have hrun : m₁.run (op :: rest) =
            (k₁.run rest).map (fun p => (o :: p.1, p.2)) := by
          simp only [IDManager1.run]
          rw [h1]
        rw [hrun, hrun1]
        rfl

theorem bij_observations {m₁ : IDManager1 T} {m₃ : IDManager3 T}
    (hg : Good m₁ m₃) (hb : Bij1 m₁) :
    (∀ i v, m₃.get_item i = some v → m₃.get_id v = some i) ∧
    (∀ v i, m₃.get_id v = some i → m₃.get_item i = some v) ∧
    m₃.id_to_item.length = m₃.item_to_id.length := by
  obtain ⟨⟨hA1, hA2, hA3, hA4, hA5, hA6⟩, ⟨hnid, hfwd, hrev⟩, hwf⟩ := hg
  have hg2 : Good m₁ m₃ := ⟨⟨hA1, hA2, hA3, hA4, hA5, hA6⟩, ⟨hnid, hfwd, hrev⟩, hwf⟩
  refine ⟨?_, ?_, ?_⟩
  · intro i v hget
    rw [← get_item_agree hg2 i] at hget
    have hmem : (i, v) ∈ m₁.id_to_item := mem_of_alLookup_eq_some hget
    have hmem2 : (v, i) ∈ m₁.item_to_id := (hb i v).mp hmem
    rw [← get_id_agree hg2 v]
    exact alLookup_of_mem_of_nodup hmem2 hA2
  · intro v i hget
    rw [← get_id_agree hg2 v] at hget
    have hmem : (v, i) ∈ m₁.item_to_id := mem_of_alLookup_eq_some hget
    have hmem2 : (i, v) ∈ m₁.id_to_item := (hb i v).mpr hmem
    rw [← get_item_agree hg2 i]
    exact alLookup_of_mem_of_nodup hmem2 hA1
  · have hlen3F : m₁.id_to_item.length = m₃.id_to_item.length := hfwd.length_eq
    have hlen3R : m₁.item_to_id.length = m₃.item_to_id.length := hrev.length_eq
    have hndF : m₁.id_to_item.Nodup := hA1.of_map
    have hndR : m₁.item_to_id.Nodup := hA2.of_map
    have hsub1 : (m₁.id_to_item.map Prod.swap).Subperm m₁.item_to_id := by
      refine List.Nodup.subperm (hndF.map Prod.swap_injective) ?_
      intro e he
      obtain ⟨d, hd, hswap⟩ := List.mem_map.mp he
      have : (d.1, d.2) ∈ m₁.id_to_item := by
        rw [Prod.mk.eta]
        exact hd
      have hmem := (hb d.1 d.2).mp this
      rw [← hswap]
      exact hmem
    have hsub2 : (m₁.item_to_id.map Prod.swap).Subperm m₁.id_to_item := by
      refine List.Nodup.subperm (hndR.map Prod.swap_injective) ?_
      intro e he
      obtain ⟨d, hd, hswap⟩ := List.mem_map.mp he
      have : (d.1, d.2) ∈ m₁.item_to_id := by
        rw [Prod.mk.eta]
        exact hd
      have hmem := (hb d.2 d.1).mpr this
      rw [← hswap]
      exact hmem
    have h1 := hsub1.length_le
    have h2 := hsub2.length_le
    rw [List.length_map] at h1 h2
    omega

end SafeRun

/-! ### Observations after a successful remove, and round-trip facts -/

section ObsLemmas

variable {K V T : Type} [DecidableEq T] {p : K → Bool}

theorem alLookup_found_mid {l₁ l₂ : List (K × V)} {k₀ : K} {v₀ : V}
    (hfalse : ∀ e ∈ l₁, p e.1 = false) (hp : p k₀ = true) :
    alLookup p (l₁ ++ (k₀, v₀) :: l₂) = some v₀ := by
  rw [alLookup_append_of_forall_false hfalse]
  simp [alLookup, hp]

theorem inv1_length {m : IDManager1 T} (hinv : Inv1 m) :
    m.item_to_id.length ≤ m.id_to_item.length := by
  obtain ⟨hA1, hA2, hA3, hA4, hA5, hA6⟩ := hinv
  have hsub : (m.item_to_id.map Prod.snd).Subperm (m.id_to_item.map Prod.fst) := by
    refine List.Nodup.subperm hA5 ?_
    intro d hd
    obtain ⟨e, he, hsnd⟩ := List.mem_map.mp hd
    have := hA6 e he
    rw [← hsnd]
    exact List.mem_map_of_mem Prod.fst this
  have := hsub.length_le
  rw [List.length_map, List.length_map] at this
  exact this

theorem insert1_get_id {m : IDManager1 T} (hinv : Inv1 m) {x : T} {i : ID}
    {n : IDManager1 T} (h : m.insert x = some (i, n)) : n.get_id x = some i := by
  obtain ⟨hA1, hA2, hA3, hA4, hA5, hA6⟩ := hinv
  obtain ⟨hi, -, -, hR⟩ := insert1_spec h
  subst hi
  rw [IDManager1.get_id, hR]
  cases hx : m.get_id x with
  | none =>
      have hpR : ∀ e ∈ m.item_to_id, (fun y => decide (y = x)) e.1 = false := by
        rw [IDManager1.get_id] at hx
        exact alLookup_eq_none.mp hx
      rw [alInsert_of_forall_false (p := fun y => decide (y = x)) hpR]
      rw [alLookup_append_of_forall_false hpR]
      simp [alLookup]
  | some i₀ =>
      rw [IDManager1.get_id] at hx
      obtain ⟨r₁, x₀, r₂, hdec, hpx₀, hprefix⟩ := alLookup_eq_some hx
      rw [hdec, alInsert_decomp (p := fun y => decide (y = x)) hprefix hpx₀]
      exact alLookup_found_mid hprefix hpx₀

theorem insert1_length_rev {m : IDManager1 T} {x : T} {i : ID}
    {n : IDManager1 T} (h : m.insert x = some (i, n)) :
    n.item_to_id.length ≤ m.item_to_id.length + 1 := by
  obtain ⟨-, -, -, hR⟩ := insert1_spec h
  rw [hR]
  cases hx : alLookup (fun y => decide (y = x)) m.item_to_id with
  | none =>
      have hpR : ∀ e ∈ m.item_to_id, (fun y => decide (y = x)) e.1 = false :=
        alLookup_eq_none.mp hx
      rw [alInsert_of_forall_false (p := fun y => decide (y = x)) hpR]
      simp
  | some i₀ =>
      have hfst := alInsert_map_fst_of_found (p := fun y => decide (y = x))
        (k := x) (v := m.next_id) (by rw [hx]; rfl)
      have : (alInsert (fun y => decide (y = x)) x m.next_id
          m.item_to_id).2.length = m.item_to_id.length := by
        rw [← List.length_map _ Prod.fst, hfst, List.length_map]
      omega

theorem insert1_length_fwd {m : IDManager1 T} (hinv : Inv1 m) {x : T} {i : ID}
    {n : IDManager1 T} (h : m.insert x = some (i, n)) :
    n.id_to_item.length = m.id_to_item.length + 1 := by
  obtain ⟨hA1, hA2, hA3, hA4, hA5, hA6⟩ := hinv
  obtain ⟨-, -, hF, -⟩ := insert1_spec h
  have hpF : ∀ e ∈ m.id_to_item, (fun j => decide (j = m.next_id)) e.1 = false := by
    intro e he
    have hbound := hA3 e he
    simp only [decide_eq_false_iff_not]
    intro hEq
    rw [hEq] at hbound
    exact lt_irrefl _ hbound
  rw [hF, alInsert_of_forall_false (p := fun j => decide (j = m.next_id)) hpF]
  simp

theorem delete_observations {m₁ : IDManager1 T} {m₃ : IDManager3 T}
    (hg : Good m₁ m₃) {v : T} {i : ID} (hv : m₃.get_id v = some i) :
    ∃ n₁ n₃, m₃.delete v = (true, n₃, []) ∧ Good n₁ n₃ ∧
      n₃.get_id v = none ∧ n₃.get_item i = none ∧
      (∀ j, j ≠ i → n₃.get_item j = m₃.get_item j) ∧
      (∀ w, w ≠ v → n₃.get_id w = m₃.get_id w) ∧
      n₃.next_id = m₃.next_id := by
  have hv1 : m₁.get_id v = some i := by rw [get_id_agree hg]; exact hv
  obtain ⟨ok, w, n₁, n₃, h1, h3, hgood, hnid1, hnid3⟩ := delete_agree hg v
  rw [delete1_some hv1] at h1
  obtain ⟨hok, h1b⟩ := Prod.mk.injEq .. ▸ h1.symm
  obtain ⟨hn1, hw⟩ := Prod.mk.injEq .. ▸ h1b
  subst hok
  subst hw
  obtain ⟨hA1, hA2, hA3, hA4, hA5, hA6⟩ := hg.1
  have hxlook : alLookup (fun y => decide (y = v)) m₁.item_to_id = some i := hv1
  have hxmem : (v, i) ∈ m₁.item_to_id := mem_of_alLookup_eq_some hxlook
  have hfwdmem : (i, v) ∈ m₁.id_to_item := hA6 (v, i) hxmem
  have hflook : alLookup (fun j => decide (j = i)) m₁.id_to_item = some v :=
    alLookup_of_mem_of_nodup hfwdmem hA1
  -- decompositions of both removals
  have hfsome : (alRemove (fun j => decide (j = i)) m₁.id_to_item).1.isSome =
      true := by
    rw [alRemove_fst_isSome, hflook]
    rfl
  obtain ⟨ef, hef⟩ := Option.isSome_iff_exists.mp hfsome
  obtain ⟨hmemf, hpf, u₁, u₂, hdecF, hrestF, -⟩ := alRemove_found_decomp hef
  have hef2 : ef = (i, v) := by
    have ha : ef.1 = i := by simpa using hpf
    have hb2 : ef.2 = v := key_unique hA1 (ha ▸ hmemf) hfwdmem
    exact Prod.ext ha hb2
  have hrsome : (alRemove (fun y => decide (y = v)) m₁.item_to_id).1.isSome =
      true := by
    rw [alRemove_fst_isSome, hxlook]
    rfl
  obtain ⟨er, her⟩ := Option.isSome_iff_exists.mp hrsome
  obtain ⟨hmemr, hpr, w₁, w₂, hdecR, hrestR, -⟩ := alRemove_found_decomp her
  have her2 : er = (v, i) := by
    have ha : er.1 = v := by simpa using hpr
    have hb2 : er.2 = i := key_unique hA2 (ha ▸ hmemr) hxmem
    exact Prod.ext ha hb2
  have hndF : ((u₁ ++ ef :: u₂).map Prod.fst).Nodup := by rw [← hdecF]; exact hA1
  have hndR : ((w₁ ++ er :: w₂).map Prod.fst).Nodup := by rw [← hdecR]; exact hA2
  -- the four observation facts, first on `IDManager1`
  have hgid1 : n₁.get_id v = none := by
    rw [hn1, IDManager1.get_id]
    show alLookup (fun y => decide (y = v))
      (alRemove (fun y => decide (y = v)) m₁.item_to_id).2 = none
    rw [hrestR]
    refine alLookup_eq_none.mpr ?_
    intro d hd
    have := not_mem_removed hndR d hd
    rw [her2] at this
    simp only [decide_eq_false_iff_not]
    exact this
  have hgitem1 : n₁.get_item i = none := by
    rw [hn1, IDManager1.get_item]
    show alLookup (fun j => decide (j = i))
      (alRemove (fun j => decide (j = i)) m₁.id_to_item).2 = none
    rw [hrestF]
    refine alLookup_eq_none.mpr ?_
    intro d hd
    have := not_mem_removed hndF d hd
    rw [hef2] at this
    simp only [decide_eq_false_iff_not]
    exact this
  have hframeF : ∀ j, j ≠ i → n₁.get_item j = m₁.get_item j := by
    intro j hj
    rw [hn1, IDManager1.get_item, IDManager1.get_item]
    show alLookup (fun k => decide (k = j))
      (alRemove (fun j2 => decide (j2 = i)) m₁.id_to_item).2 = _
    rw [hrestF, hdecF, hef2]
    refine (alLookup_append_cons_of_false ?_).symm
    simp only [decide_eq_false_iff_not]
    intro h
    exact hj h.symm
  have hframeR : ∀ y, y ≠ v → n₁.get_id y = m₁.get_id y := by
    intro y hy
    rw [hn1, IDManager1.get_id, IDManager1.get_id]
    show alLookup (fun k => decide (k = y))
      (alRemove (fun y2 => decide (y2 = v)) m₁.item_to_id).2 = _
    rw [hrestR, hdecR, her2]
    refine (alLookup_append_cons_of_false ?_).symm
    simp only [decide_eq_false_iff_not]
    intro h
    exact hy h.symm
  refine ⟨n₁, n₃, h3, hgood, ?_, ?_, ?_, ?_, hnid3⟩
  · rw [← get_id_agree hgood]
    exact hgid1
  · rw [← get_item_agree hgood]
    exact hgitem1
  · intro j hj
    rw [← get_item_agree hgood, ← get_item_agree hg]
    exact hframeF j hj
  · intro y hy
    rw [← get_id_agree hgood, ← get_id_agree hg]
    exact hframeR y hy

end ObsLemmas

/-! ### Shared storage of a freshly inserted value -/

section SharedLemmas

variable {T : Type} [DecidableEq T]

theorem delete3_some_raw {m : IDManager3 T} {x : T} {i : ID}
    (h : m.get_id x = some i) :
    m.delete x = (true, ⟨m.next_id,
      (alRemove (fun j => decide (j = i)) m.id_to_item).2,
      (alRemove (fun b => decide ((m.heap.dropOpt ((alRemove
        (fun j => decide (j = i)) m.id_to_item).1.map Prod.snd)).get b =
        some x)) m.item_to_id).2,
      (m.heap.dropOpt ((alRemove (fun j => decide (j = i))
        m.id_to_item).1.map Prod.snd)).dropOpt ((alRemove
        (fun b => decide ((m.heap.dropOpt ((alRemove (fun j => decide (j = i))
          m.id_to_item).1.map Prod.snd)).get b = some x))
        m.item_to_id).1.map Prod.fst)⟩, []) := by
  simp only [IDManager3.delete]
  rw [h]

theorem insert_fresh_shared {m₁ : IDManager1 T} {m₃ : IDManager3 T}
    (hg : Good m₁ m₃) {v : T} {i : ID} {n₃ : IDManager3 T}
    (hnone : m₃.get_id v = none) (h : m₃.insert v = some (i, n₃)) :
    ∃ a, n₃.fwdAddr i = some a ∧ n₃.revAddr v = some a ∧
      n₃.heap.rc a = some 2 ∧
      ∃ n₃', n₃.delete v = (true, n₃', []) ∧
        n₃'.id_to_item = m₃.id_to_item ∧ n₃'.item_to_id = m₃.item_to_id ∧
        n₃'.heap.cells = m₃.heap.cells ∧ n₃'.heap.get a = none := by
  obtain ⟨⟨hA1, hA2, hA3, hA4, hA5, hA6⟩, ⟨hnid, hfwd, hrev⟩, hwf⟩ := hg
  have hH1 := hwf.1
  have hH2 := hwf.2.1
  -- abbreviations
  have hbne : ∀ c ∈ m₃.heap.cells, c.1 ≠ m₃.heap.fresh :=
    fun c hc => Nat.ne_of_lt (hH2 c hc)
  have hfreshmem : m₃.heap.fresh ∉ m₃.heap.cells.map Prod.fst := by
    intro hmem
    obtain ⟨c, hc, hfst⟩ := List.mem_map.mp hmem
    exact hbne c hc hfst
  have hHIeq2 : (m₃.heap.alloc v).2.incr m₃.heap.fresh =
      Heap.mk ((m₃.heap.fresh, v, 2) :: m₃.heap.cells) (m₃.heap.fresh + 1) :=
    Heap.alloc_incr_eq hbne
  have halloc1 : (m₃.heap.alloc v).1 = m₃.heap.fresh := rfl
  have hgetHI : ∀ b, b ≠ m₃.heap.fresh →
      (Heap.mk ((m₃.heap.fresh, v, 2) :: m₃.heap.cells) (m₃.heap.fresh + 1)).get b =
        m₃.heap.get b := by
    intro b hb
    calc (Heap.mk ((m₃.heap.fresh, v, 2) :: m₃.heap.cells) (m₃.heap.fresh + 1)).get b
        = (Heap.mk m₃.heap.cells (m₃.heap.fresh + 1)).get b := Heap.get_mk_cons_ne hb
      _ = (Heap.mk m₃.heap.cells m₃.heap.fresh).get b := Heap.get_mk_fresh_irrel
      _ = m₃.heap.get b := rfl
  have hgetHIa : (Heap.mk ((m₃.heap.fresh, v, 2) :: m₃.heap.cells)
      (m₃.heap.fresh + 1)).get m₃.heap.fresh = some v := Heap.get_mk_cons_self
  -- forward keys are all below the counter
  have hpF3 : ∀ f ∈ m₃.id_to_item, (fun j => decide (j = m₃.next_id)) f.1 =
      false := by
    intro f hf
    obtain ⟨e, he, hS⟩ := forall₂_mem_right hfwd f hf
    have hbound := hA3 e he
    simp only [decide_eq_false_iff_not]
    rw [← hS.1]
    intro hEq
    rw [hEq, hnid] at hbound
    exact lt_irrefl _ hbound
  have hF3ins := alInsert_of_forall_false (p := fun j => decide (j = m₃.next_id))
    (k := m₃.next_id) (v := m₃.heap.fresh) hpF3
  have hF3fst : (alInsert (fun j => decide (j = m₃.next_id)) m₃.next_id
      m₃.heap.fresh m₃.id_to_item).1 = none := by rw [hF3ins]
  have hF3snd : (alInsert (fun j => decide (j = m₃.next_id)) m₃.next_id
      m₃.heap.fresh m₃.id_to_item).2 =
      m₃.id_to_item ++ [(m₃.next_id, m₃.heap.fresh)] := by rw [hF3ins]
  -- the reverse predicate is false on all existing keys
  have hrevne : ∀ f ∈ m₃.item_to_id, f.1 ≠ m₃.heap.fresh :=
    fun f hf => Nat.ne_of_lt (rev_addr_lt_fresh hwf hf)
  have hpR0 : ∀ f ∈ m₃.item_to_id,
      (fun b => decide (m₃.heap.get b = some v)) f.1 = false := by
    rw [IDManager3.get_id] at hnone
    exact alLookup_eq_none.mp hnone
  have hpR3 : ∀ f ∈ m₃.item_to_id,
      (fun b => decide ((Heap.mk ((m₃.heap.fresh, v, 2) :: m₃.heap.cells)
        (m₃.heap.fresh + 1)).get b = some v)) f.1 = false := by
    intro f hf
    have := hpR0 f hf
    simp only [decide_eq_false_iff_not] at this ⊢
    rw [hgetHI f.1 (hrevne f hf)]
    exact this
  have hR3ins := alInsert_of_forall_false
    (p := fun b => decide ((Heap.mk ((m₃.heap.fresh, v, 2) :: m₃.heap.cells)
      (m₃.heap.fresh + 1)).get b = some v))
    (k := m₃.heap.fresh) (v := m₃.next_id) hpR3
  have hR3fst0 : (alInsert (fun b => decide ((Heap.mk ((m₃.heap.fresh, v, 2) ::
      m₃.heap.cells) (m₃.heap.fresh + 1)).get b = some v)) m₃.heap.fresh
      m₃.next_id m₃.item_to_id).1 = none := by rw [hR3ins]
  have hR3snd : (alInsert (fun b => decide ((Heap.mk ((m₃.heap.fresh, v, 2) ::
      m₃.heap.cells) (m₃.heap.fresh + 1)).get b = some v)) m₃.heap.fresh
      m₃.next_id m₃.item_to_id).2 =
      m₃.item_to_id ++ [(m₃.heap.fresh, m₃.next_id)] := by rw [hR3ins]
  -- compute the insert
  cases hstep : m₃.next_id.step with
  | none =>
      exfalso
      simp only [IDManager3.insert] at h
      rw [hstep] at h
      cases h
  | some nid =>
      have hins : m₃.insert v = some (m₃.next_id,
          ⟨nid, m₃.id_to_item ++ [(m₃.next_id, m₃.heap.fresh)],
            m₃.item_to_id ++ [(m₃.heap.fresh, m₃.next_id)],
            Heap.mk ((m₃.heap.fresh, v, 2) :: m₃.heap.cells)
              (m₃.heap.fresh + 1)⟩) := by
        simp only [IDManager3.insert]
        rw [halloc1, hHIeq2, hF3fst]
        simp only [Heap.dropOpt]
        rw [hF3snd, hR3snd, if_neg (by rw [hR3fst0]; simp), hstep]
      rw [hins] at h
      obtain ⟨hi, hn⟩ := Prod.mk.injEq .. ▸ Option.some.inj h
      subst hi
      have hnF : n₃.id_to_item = m₃.id_to_item ++ [(m₃.next_id, m₃.heap.fresh)] := by
        rw [← hn]
      have hnR : n₃.item_to_id = m₃.item_to_id ++ [(m₃.heap.fresh, m₃.next_id)] := by
        rw [← hn]
      have hnH : n₃.heap = Heap.mk ((m₃.heap.fresh, v, 2) :: m₃.heap.cells)
          (m₃.heap.fresh + 1) := by
        rw [← hn]
      have hnN : n₃.next_id = nid := by
        rw [← hn]
      refine ⟨m₃.heap.fresh, ?_, ?_, ?_, ?_⟩
      · rw [IDManager3.fwdAddr, hnF]
        exact alLookup_found_mid hpF3 (by simp)
      · rw [IDManager3.revAddr, hnR, hnH]
        rw [alFindKey_append_of_forall_false hpR3]
        simp [alFindKey, hgetHIa]
      · rw [hnH]
        simp [Heap.rc, alLookup]
      · -- removing the value again frees the shared cell
        have hgid : n₃.get_id v = some m₃.next_id := by
          rw [IDManager3.get_id, hnR, hnH]
          exact alLookup_found_mid hpR3 (by simp [hgetHIa])
        have hfrem : alRemove (fun j => decide (j = m₃.next_id))
            (m₃.id_to_item ++ [(m₃.next_id, m₃.heap.fresh)]) =
            (some (m₃.next_id, m₃.heap.fresh), m₃.id_to_item ++ []) :=
          alRemove_decomp hpF3 (by simp)
        have hdecr1 : (Heap.mk ((m₃.heap.fresh, v, 2) :: m₃.heap.cells)
            (m₃.heap.fresh + 1)).decr m₃.heap.fresh =
            Heap.mk ((m₃.heap.fresh, v, 1) :: m₃.heap.cells)
              (m₃.heap.fresh + 1) := by
          show Heap.mk (Heap.decrCells m₃.heap.fresh ((m₃.heap.fresh, v, 2) ::
            m₃.heap.cells)) (m₃.heap.fresh + 1) = _
          rw [Heap.decrCells_cons_self_gt (by omega)]
        have hget1 : ∀ b, b ≠ m₃.heap.fresh →
            (Heap.mk ((m₃.heap.fresh, v, 1) :: m₃.heap.cells)
              (m₃.heap.fresh + 1)).get b = m₃.heap.get b := by
          intro b hb
          calc (Heap.mk ((m₃.heap.fresh, v, 1) :: m₃.heap.cells)
              (m₃.heap.fresh + 1)).get b
              = (Heap.mk m₃.heap.cells (m₃.heap.fresh + 1)).get b :=
                Heap.get_mk_cons_ne hb
            _ = (Heap.mk m₃.heap.cells m₃.heap.fresh).get b :=
                Heap.get_mk_fresh_irrel
            _ = m₃.heap.get b := rfl
        have hpR1 : ∀ f ∈ m₃.item_to_id,
            (fun b => decide ((Heap.mk ((m₃.heap.fresh, v, 1) :: m₃.heap.cells)
              (m₃.heap.fresh + 1)).get b = some v)) f.1 = false := by
          intro f hf
          have := hpR0 f hf
          simp only [decide_eq_false_iff_not] at this ⊢
          rw [hget1 f.1 (hrevne f hf)]
          exact this
        have hrrem : alRemove (fun b => decide ((Heap.mk ((m₃.heap.fresh, v, 1) ::
            m₃.heap.cells) (m₃.heap.fresh + 1)).get b = some v))
            (m₃.item_to_id ++ [(m₃.heap.fresh, m₃.next_id)]) =
            (some (m₃.heap.fresh, m₃.next_id), m₃.item_to_id ++ []) :=
          alRemove_decomp hpR1 (by simp [Heap.get_mk_cons_self])
        have hdecr2 : (Heap.mk ((m₃.heap.fresh, v, 1) :: m₃.heap.cells)
            (m₃.heap.fresh + 1)).decr m₃.heap.fresh =
            Heap.mk m₃.heap.cells (m₃.heap.fresh + 1) := by
          show Heap.mk (Heap.decrCells m₃.heap.fresh ((m₃.heap.fresh, v, 1) ::
            m₃.heap.cells)) (m₃.heap.fresh + 1) = _
          rw [Heap.decrCells_cons_self_le (by omega)]
        have hdel0 := delete3_some_raw hgid
        rw [hnF, hnR, hnH, hnN] at hdel0
        rw [hfrem] at hdel0
        simp only [Option.map_some'] at hdel0
        simp only [show (Heap.mk ((m₃.heap.fresh, v, 2) :: m₃.heap.cells)
            (m₃.heap.fresh + 1)).dropOpt (some m₃.heap.fresh) =
            Heap.mk ((m₃.heap.fresh, v, 1) :: m₃.heap.cells)
              (m₃.heap.fresh + 1) from hdecr1] at hdel0
        rw [hrrem] at hdel0
        simp only [Option.map_some'] at hdel0
        simp only [show (Heap.mk ((m₃.heap.fresh, v, 1) :: m₃.heap.cells)
            (m₃.heap.fresh + 1)).dropOpt (some m₃.heap.fresh) =
            Heap.mk m₃.heap.cells (m₃.heap.fresh + 1) from hdecr2] at hdel0
        refine ⟨⟨nid, m₃.id_to_item ++ [], m₃.item_to_id ++ [],
          Heap.mk m₃.heap.cells (m₃.heap.fresh + 1)⟩, hdel0,
          by simp, by simp, rfl, ?_⟩
        show (Heap.mk m₃.heap.cells (m₃.heap.fresh + 1)).get m₃.heap.fresh = none
        rw [Heap.get]
        have hlnone : alLookup (fun b => decide (b = m₃.heap.fresh))
            m₃.heap.cells = none := by
          refine alLookup_eq_none.mpr ?_
          intro c hc
          simp only [decide_eq_false_iff_not]
          exact hbne c hc
        rw [hlnone]
        rfl

end SharedLemmas

/-! ### Re-insertion of an equal value: what the source actually does -/

section ReinsertLemmas

variable {T : Type} [DecidableEq T]

theorem reinsert_obs {m₁ : IDManager1 T} {m₃ : IDManager3 T} (hg : Good m₁ m₃)
    {x : T} {old nid : ID} {mid n : IDManager3 T}
    (h1 : m₃.insert x = some (old, mid)) (h2 : mid.insert x = some (nid, n)) :
    n.get_item old = some x ∧ n.get_id x = some nid ∧ n.get_item nid = some x ∧
    n.item_to_id.length < n.id_to_item.length := by
  rcases insert_agree hg x with ⟨-, h3⟩ | ⟨k₁, k₃, i1, i3, -, hgood1⟩
  · rw [h1] at h3
    cases h3
  rw [h1] at i3
  obtain ⟨hold, hmid⟩ := Prod.mk.injEq .. ▸ Option.some.inj i3
  rw [hmid] at h2
  rcases insert_agree hgood1 x with ⟨-, h3b⟩ | ⟨u₁, u₃, j1, j3, -, hgood2⟩
  · rw [h2] at h3b
    cases h3b
  rw [h2] at j3
  obtain ⟨hnid2, hn⟩ := Prod.mk.injEq .. ▸ Option.some.inj j3
  obtain ⟨hA1, hA2, hA3, hA4, hA5, hA6⟩ := hg.1
  have hinvk : Inv1 k₁ := hgood1.1
  have hinvk2 : Inv1 k₁ := hgood1.1
  obtain ⟨hB1, hB2, hB3, hB4, hB5, hB6⟩ := hinvk2
  -- both forward inserts append a fresh key
  have hpF1 : ∀ e ∈ m₁.id_to_item, (fun j => decide (j = m₁.next_id)) e.1 =
      false := by
    intro e he
    have hbound := hA3 e he
    simp only [decide_eq_false_iff_not]
    intro hEq
    rw [hEq] at hbound
    exact lt_irrefl _ hbound
  have hpF2 : ∀ e ∈ k₁.id_to_item, (fun j => decide (j = k₁.next_id)) e.1 =
      false := by
    intro e he
    have hbound := hB3 e he
    simp only [decide_eq_false_iff_not]
    intro hEq
    rw [hEq] at hbound
    exact lt_irrefl _ hbound
  obtain ⟨-, -, hk₁F, -⟩ := insert1_spec i1
  have hk₁F2 : k₁.id_to_item = m₁.id_to_item ++ [(m₁.next_id, x)] := by
    rw [hk₁F, alInsert_of_forall_false (p := fun j => decide (j = m₁.next_id))
      hpF1]
  obtain ⟨-, -, hu₁F, hu₁R⟩ := insert1_spec j1
  have hu₁F2 : u₁.id_to_item = k₁.id_to_item ++ [(k₁.next_id, x)] := by
    rw [hu₁F, alInsert_of_forall_false (p := fun j => decide (j = k₁.next_id))
      hpF2]
  -- the dangling old forward entry still answers `get_item`
  have hval1 : u₁.get_item old = some x := by
    rw [IDManager1.get_item, hu₁F2, hk₁F2, List.append_assoc,
      List.singleton_append, hold]
    exact alLookup_found_mid hpF1 (by simp)
  have e1 : n.get_item old = some x := by
    rw [hn, ← get_item_agree hgood2]
    exact hval1
  -- the reverse index answers the new id
  have e2 : n.get_id x = some nid := by
    rw [hn, ← get_id_agree hgood2, hnid2]
    exact insert1_get_id hinvk j1
  have hval2 : u₁.get_item nid = some x := by
    rw [IDManager1.get_item, hu₁F2, hnid2]
    exact alLookup_found_mid hpF2 (by simp)
  have e3 : n.get_item nid = some x := by
    rw [hn, ← get_item_agree hgood2]
    exact hval2
  -- the forward index grows while the reverse index does not
  have hlenF : u₁.id_to_item.length = k₁.id_to_item.length + 1 :=
    insert1_length_fwd hinvk j1
  have hfound : (alLookup (fun y => decide (y = x)) k₁.item_to_id).isSome =
      true := by
    have hk := insert1_get_id hg.1 i1
    rw [IDManager1.get_id] at hk
    rw [hk]
    rfl
  have hlenR : u₁.item_to_id.length = k₁.item_to_id.length := by
    have hfst := alInsert_map_fst_of_found (p := fun y => decide (y = x))
      (k := x) (v := k₁.next_id) hfound
    rw [hu₁R, ← List.length_map _ Prod.fst, hfst, List.length_map]
  have hle := inv1_length hinvk
  have hF2 := hgood2.2.1.2.1.length_eq
  have hR2 := hgood2.2.1.2.2.length_eq
  have e4 : n.item_to_id.length < n.id_to_item.length := by
    rw [hn]
    have hk12 : k₁.id_to_item.length + 1 = u₃.id_to_item.length := by
      rw [← hF2, hlenF]
    have hk13 : u₃.item_to_id.length = k₁.item_to_id.length := by
      rw [← hR2, hlenR]
    omega
  exact ⟨e1, e2, e3, e4⟩

end ReinsertLemmas

/-! ### The claims -/

section Claims

variable {T : Type} [DecidableEq T]

/-- C1: the spec's replace policy demands that re-inserting an equal value
removes the prior `(old_id, prior_value)` association from both indexes, so
that afterwards `lookup_value(old_id)` is `None`.  The source does not
implement this: after `insert 5` twice from the empty manager, the old ID 0
is still mapped by the forward index (`get_item ⟨0⟩ = some 5`), while the
reverse index answers the new ID 1. -/
theorem C1_reinsert_keeps_old_forward_entry :
    ∃ m₂ : IDManager3 Nat,
      (IDManager3.new Nat).run [Op.insert 5, Op.insert 5] =
        some ([Out.issued ⟨0⟩, Out.issued ⟨1⟩], m₂) ∧
      m₂.get_item ⟨0⟩ = some 5 ∧ m₂.get_id 5 = some ⟨1⟩ ∧
      m₂.get_item ⟨1⟩ = some 5 :=
  ⟨⟨⟨2⟩, [(⟨0⟩, 0), (⟨1⟩, 1)], [(0, ⟨1⟩)], ⟨[(1, 5, 1), (0, 5, 2)], 2⟩⟩,
    rfl, rfl, rfl, rfl⟩

/-- C2 counterexample: after the operation sequence `insert 5; insert 5`
from the empty manager the two indexes are not exact inverses: the forward
index holds two entries while the reverse index holds one, and the live
forward entry for ID 0 maps to a value whose reverse lookup answers ID 1. -/
theorem C2_counterexample_reinsert_sizes :
    ∃ m₂ : IDManager3 Nat,
      (IDManager3.new Nat).run [Op.insert 5, Op.insert 5] =
        some ([Out.issued ⟨0⟩, Out.issued ⟨1⟩], m₂) ∧
      m₂.get_item ⟨0⟩ = some 5 ∧ m₂.get_id 5 = some ⟨1⟩ ∧
      m₂.id_to_item.length = 2 ∧ m₂.item_to_id.length = 1 :=
  ⟨⟨⟨2⟩, [(⟨0⟩, 0), (⟨1⟩, 1)], [(0, ⟨1⟩)], ⟨[(1, 5, 1), (0, 5, 2)], 2⟩⟩,
    rfl, rfl, rfl, rfl, rfl⟩

/-- C2 (amended): after every safe sequence of operations from the empty
manager — one in which no `insert` re-inserts a value already present —
the two indexes of `IDManager3` are exact inverses: `get_item` and
`get_id` round-trip in both directions and the indexes have equal size. -/
theorem C2_bijection_after_safe_runs {ops : List (Op T)} {outs : List (Out T)}
    {m₃ : IDManager3 T} (h : (IDManager3.new T).run ops = some (outs, m₃))
    (hsafe : (IDManager3.new T).safeOps ops = true) :
    (∀ i v, m₃.get_item i = some v → m₃.get_id v = some i) ∧
    (∀ v i, m₃.get_id v = some i → m₃.get_item i = some v) ∧
    m₃.id_to_item.length = m₃.item_to_id.length := by
  obtain ⟨n₁, -, hgood, hbij⟩ := safe_run_aux good_new bij_new h hsafe
  exact bij_observations hgood hbij

/-- Witness for C2: the safe sequence `insert 5; insert 6` leaves indexes
of equal size. -/
theorem C2_bijection_after_safe_runs_witness :
    (⟨⟨2⟩, [(⟨0⟩, 0), (⟨1⟩, 1)], [(0, ⟨0⟩), (1, ⟨1⟩)],
      ⟨[(1, 6, 2), (0, 5, 2)], 2⟩⟩ : IDManager3 Nat).id_to_item.length =
    (⟨⟨2⟩, [(⟨0⟩, 0), (⟨1⟩, 1)], [(0, ⟨0⟩), (1, ⟨1⟩)],
      ⟨[(1, 6, 2), (0, 5, 2)], 2⟩⟩ : IDManager3 Nat).item_to_id.length :=
  (@C2_bijection_after_safe_runs Nat instDecidableEqNat [Op.insert 5, Op.insert 6]
    [Out.issued ⟨0⟩, Out.issued ⟨1⟩]
    ⟨⟨2⟩, [(⟨0⟩, 0), (⟨1⟩, 1)], [(0, ⟨0⟩), (1, ⟨1⟩)],
      ⟨[(1, 6, 2), (0, 5, 2)], 2⟩⟩ rfl rfl).2.2

/-- C3: the counter of a fresh manager is zero; every successful insert
returns the current counter and increments it by exactly one; the counter
never decreases along a run; hence for inserts A before B in program
order, `id(A) < id(B)`. -/
theorem C3_ids_strictly_increase :
    (IDManager3.new T).next_id.val = 0 ∧
    (∀ (m n : IDManager3 T) (x : T) (i : ID), m.insert x = some (i, n) →
      i = m.next_id ∧ n.next_id.val = m.next_id.val + 1) ∧
    (∀ (m n : IDManager3 T) (ops : List (Op T)) (outs : List (Out T)),
      m.run ops = some (outs, n) → m.next_id.val ≤ n.next_id.val) ∧
    (∀ (m mA mB n : IDManager3 T) (x y : T) (i j : ID) (ops : List (Op T))
      (outs : List (Out T)), m.insert x = some (i, mA) →
      mA.run ops = some (outs, mB) → mB.insert y = some (j, n) →
      i.val < j.val) := by
  refine ⟨rfl, fun m n x i hins => insert3_spec hins,
    fun m n ops outs h => run3_next_id_mono h, ?_⟩
  intro m mA mB n x y i j ops outs h1 hrun h2
  obtain ⟨hi, hA⟩ := insert3_spec h1
  have hmono := run3_next_id_mono hrun
  obtain ⟨hj, -⟩ := insert3_spec h2
  rw [hi, hj]
  omega

/-- Witness for C3: inserting 5 then 6 yields IDs 0 and 1, with 0 < 1. -/
theorem C3_ids_strictly_increase_witness : (⟨0⟩ : ID).val < (⟨1⟩ : ID).val :=
  (@C3_ids_strictly_increase Nat instDecidableEqNat).2.2.2 (IDManager3.new Nat)
    ⟨⟨1⟩, [(⟨0⟩, 0)], [(0, ⟨0⟩)], ⟨[(0, 5, 2)], 1⟩⟩
    ⟨⟨1⟩, [(⟨0⟩, 0)], [(0, ⟨0⟩)], ⟨[(0, 5, 2)], 1⟩⟩
    ⟨⟨2⟩, [(⟨0⟩, 0), (⟨1⟩, 1)], [(0, ⟨0⟩), (1, ⟨1⟩)],
      ⟨[(1, 6, 2), (0, 5, 2)], 2⟩⟩
    5 6 ⟨0⟩ ⟨1⟩ [] [] rfl rfl rfl

/-- C4: `delete` never decrements the counter, and an ID live in a
reachable state is strictly below every ID issued after it is removed, so
a removed ID is never reassigned. -/
theorem C4_no_id_reuse :
    (∀ (m : IDManager3 T) (x : T), (m.delete x).2.1.next_id = m.next_id) ∧
    (∀ (ops : List (Op T)) (outs : List (Out T)) (m : IDManager3 T),
      (IDManager3.new T).run ops = some (outs, m) →
      ∀ (x : T) (i : ID), m.get_id x = some i →
      ∀ (ops2 : List (Op T)) (outs2 : List (Out T)) (m2 : IDManager3 T),
        (m.delete x).2.1.run ops2 = some (outs2, m2) →
      ∀ (y : T) (j : ID) (n : IDManager3 T), m2.insert y = some (j, n) →
        i.val < j.val) := by
  refine ⟨fun m x => delete3_next_id, ?_⟩
  intro ops outs m h x i hx ops2 outs2 m2 h2 y j n hins
  obtain ⟨m₁, -, hg⟩ := reach_good h
  have hx1 : m₁.get_id x = some i := by
    rw [get_id_agree hg]
    exact hx
  have hmem : (x, i) ∈ m₁.item_to_id := mem_of_alLookup_eq_some hx1
  have hibound : i.val < m₁.next_id.val := hg.1.2.2.2.1 (x, i) hmem
  have hnidv : m₁.next_id.val = m.next_id.val := by rw [hg.2.1.1]
  have hdel : (m.delete x).2.1.next_id.val = m.next_id.val := by
    rw [delete3_next_id]
  have hmono := run3_next_id_mono h2
  obtain ⟨hj, -⟩ := insert3_spec hins
  rw [hj]
  omega

/-- Witness for C4: ID 0 is removed after `insert 5`, and the next insert
issues ID 1, with 0 < 1. -/
theorem C4_no_id_reuse_witness : (⟨0⟩ : ID).val < (⟨1⟩ : ID).val :=
  (@C4_no_id_reuse Nat instDecidableEqNat).2 [Op.insert 5] [Out.issued ⟨0⟩]
    ⟨⟨1⟩, [(⟨0⟩, 0)], [(0, ⟨0⟩)], ⟨[(0, 5, 2)], 1⟩⟩ rfl 5 ⟨0⟩ rfl
    [] [] ⟨⟨1⟩, [], [], ⟨[], 1⟩⟩ rfl
    6 ⟨1⟩ ⟨⟨2⟩, [(⟨1⟩, 1)], [(1, ⟨1⟩)], ⟨[(1, 6, 2)], 2⟩⟩ rfl

/-- C5: in every reachable state, `delete` of a present value returns
`true` with no diagnostic and removes the association from both indexes,
leaving the counter unchanged; `delete` of an absent value returns `false`,
leaves the state unchanged, and emits the one-line warning. -/
theorem C5_remove_semantics {ops : List (Op T)} {outs : List (Out T)}
    {m₃ : IDManager3 T} (h : (IDManager3.new T).run ops = some (outs, m₃)) :
    (∀ v i, m₃.get_id v = some i →
      ∃ n₃, m₃.delete v = (true, n₃, []) ∧ n₃.get_id v = none ∧
        n₃.get_item i = none ∧ n₃.next_id = m₃.next_id) ∧
    (∀ v, m₃.get_id v = none →
      m₃.delete v = (false, m₃, ["Warning: tried to delete nonexistent item"])) := by
  obtain ⟨m₁, -, hg⟩ := reach_good h
  refine ⟨?_, ?_⟩
  · intro v i hv
    obtain ⟨n₁, n₃, hdel, -, hidnone, hitemnone, -, -, hnid⟩ :=
      delete_observations hg hv
    exact ⟨n₃, hdel, hidnone, hitemnone, hnid⟩
  · intro v hv
    exact delete3_none hv

/-- Witness for C5: deleting the absent value 7 after `insert 5` fails
with the warning and leaves the manager unchanged. -/
theorem C5_remove_semantics_witness :
    (⟨⟨1⟩, [(⟨0⟩, 0)], [(0, ⟨0⟩)], ⟨[(0, 5, 2)], 1⟩⟩ : IDManager3 Nat).delete 7 =
      (false, ⟨⟨1⟩, [(⟨0⟩, 0)], [(0, ⟨0⟩)], ⟨[(0, 5, 2)], 1⟩⟩,
        ["Warning: tried to delete nonexistent item"]) :=
  (@C5_remove_semantics Nat instDecidableEqNat [Op.insert 5] [Out.issued ⟨0⟩]
    ⟨⟨1⟩, [(⟨0⟩, 0)], [(0, ⟨0⟩)], ⟨[(0, 5, 2)], 1⟩⟩ rfl).2 7 rfl

/-- C6: removing a present value twice from a reachable state returns
`true` then `false`, and the second call returns the intermediate state
itself — both indexes and the counter are untouched. -/
theorem C6_idempotent_remove {ops : List (Op T)} {outs : List (Out T)}
    {m₃ : IDManager3 T} (h : (IDManager3.new T).run ops = some (outs, m₃))
    {v : T} {i : ID} (hv : m₃.get_id v = some i) :
    ∃ n₃, m₃.delete v = (true, n₃, []) ∧
      n₃.delete v = (false, n₃, ["Warning: tried to delete nonexistent item"]) := by
  obtain ⟨m₁, -, hg⟩ := reach_good h
  obtain ⟨n₁, n₃, hdel, -, hidnone, -, -, -, -⟩ := delete_observations hg hv
  exact ⟨n₃, hdel, delete3_none hidnone⟩

/-- Witness for C6: deleting 5 twice after `insert 5`. -/
theorem C6_idempotent_remove_witness :
    ∃ n₃ : IDManager3 Nat,
      (⟨⟨1⟩, [(⟨0⟩, 0)], [(0, ⟨0⟩)], ⟨[(0, 5, 2)], 1⟩⟩ :
        IDManager3 Nat).delete 5 = (true, n₃, []) ∧
      n₃.delete 5 = (false, n₃, ["Warning: tried to delete nonexistent item"]) :=
  @C6_idempotent_remove Nat instDecidableEqNat [Op.insert 5] [Out.issued ⟨0⟩]
    ⟨⟨1⟩, [(⟨0⟩, 0)], [(0, ⟨0⟩)], ⟨[(0, 5, 2)], 1⟩⟩ rfl 5 ⟨0⟩ rfl

/-- C7: re-inserting an equal value in a reachable state leaves the old
forward entry dangling — `get_item old_id` still answers the value — while
the reverse index answers only the new ID, and the reverse index is
strictly smaller than the forward index. -/
theorem C7_reinsert_observed_behavior {ops : List (Op T)} {outs : List (Out T)}
    {m₃ : IDManager3 T} (h : (IDManager3.new T).run ops = some (outs, m₃))
    {x : T} {old nid : ID} {mid n : IDManager3 T}
    (h1 : m₃.insert x = some (old, mid)) (h2 : mid.insert x = some (nid, n)) :
    n.get_item old = some x ∧ n.get_id x = some nid ∧ n.get_item nid = some x ∧
    n.item_to_id.length < n.id_to_item.length := by
  obtain ⟨m₁, -, hg⟩ := reach_good h
  exact reinsert_obs hg h1 h2

/-- Witness for C7: `insert 5` twice from the empty manager. -/
theorem C7_reinsert_observed_behavior_witness :
    (⟨⟨2⟩, [(⟨0⟩, 0), (⟨1⟩, 1)], [(0, ⟨1⟩)], ⟨[(1, 5, 1), (0, 5, 2)], 2⟩⟩ :
      IDManager3 Nat).get_item ⟨0⟩ = some 5 ∧
    (⟨⟨2⟩, [(⟨0⟩, 0), (⟨1⟩, 1)], [(0, ⟨1⟩)], ⟨[(1, 5, 1), (0, 5, 2)], 2⟩⟩ :
      IDManager3 Nat).get_id 5 = some ⟨1⟩ ∧
    (⟨⟨2⟩, [(⟨0⟩, 0), (⟨1⟩, 1)], [(0, ⟨1⟩)], ⟨[(1, 5, 1), (0, 5, 2)], 2⟩⟩ :
      IDManager3 Nat).get_item ⟨1⟩ = some 5 ∧
    (⟨⟨2⟩, [(⟨0⟩, 0), (⟨1⟩, 1)], [(0, ⟨1⟩)], ⟨[(1, 5, 1), (0, 5, 2)], 2⟩⟩ :
      IDManager3 Nat).item_to_id.length <
    (⟨⟨2⟩, [(⟨0⟩, 0), (⟨1⟩, 1)], [(0, ⟨1⟩)], ⟨[(1, 5, 1), (0, 5, 2)], 2⟩⟩ :
      IDManager3 Nat).id_to_item.length :=
  @C7_reinsert_observed_behavior Nat instDecidableEqNat [] [] (IDManager3.new Nat) rfl
    5 ⟨0⟩ ⟨1⟩ ⟨⟨1⟩, [(⟨0⟩, 0)], [(0, ⟨0⟩)], ⟨[(0, 5, 2)], 1⟩⟩
    ⟨⟨2⟩, [(⟨0⟩, 0), (⟨1⟩, 1)], [(0, ⟨1⟩)], ⟨[(1, 5, 1), (0, 5, 2)], 2⟩⟩
    rfl rfl

/-- C8: `ID::step` is an unchecked `self.0 += 1`.  At the maximum
representable ID the release-profile semantics silently wraps the counter
to zero (reissuing old IDs), and the debug-profile semantics aborts; the
source neither refuses the insert nor documents the choice. -/
theorem C8_overflow_wraps :
    ID.stepWrapping ⟨USIZE - 1⟩ = ⟨0⟩ ∧ ID.step ⟨USIZE - 1⟩ = none := by
  constructor
  · show (⟨(USIZE - 1 + 1) % USIZE⟩ : ID) = ⟨0⟩
    norm_num [USIZE]
  · rw [ID.step, if_neg]
    norm_num [USIZE]

/-- C9 counterexample: after re-inserting 5, the live association for
ID 1 reads its value through heap cell 1 in the forward index but uses
heap cell 0 as the reverse-index key — two distinct `Rc` allocations, so
the forward value and the reverse key are not one shared object. -/
theorem C9_counterexample_reinsert_distinct_cells :
    ∃ m₂ : IDManager3 Nat,
      (IDManager3.new Nat).run [Op.insert 5, Op.insert 5] =
        some ([Out.issued ⟨0⟩, Out.issued ⟨1⟩], m₂) ∧
      m₂.get_id 5 = some ⟨1⟩ ∧ m₂.fwdAddr ⟨1⟩ = some 1 ∧
      m₂.revAddr 5 = some 0 :=
  ⟨⟨⟨2⟩, [(⟨0⟩, 0), (⟨1⟩, 1)], [(0, ⟨1⟩)], ⟨[(1, 5, 1), (0, 5, 2)], 2⟩⟩,
    rfl, rfl, rfl, rfl⟩

/-- C9 (amended): inserting a value not already present in a reachable
state stores one shared `Rc` cell: both index entries hold the same
address, its strong count is exactly 2, and deleting the value destroys
the cell exactly once — the heap returns to its previous cells and the
address is dead. -/
theorem C9_fresh_insert_shared_cell {ops : List (Op T)} {outs : List (Out T)}
    {m₃ : IDManager3 T} (h : (IDManager3.new T).run ops = some (outs, m₃))
    {v : T} {i : ID} {n₃ : IDManager3 T}
    (hnone : m₃.get_id v = none) (hins : m₃.insert v = some (i, n₃)) :
    ∃ a, n₃.fwdAddr i = some a ∧ n₃.revAddr v = some a ∧
      n₃.heap.rc a = some 2 ∧
      ∃ n₄, n₃.delete v = (true, n₄, []) ∧ n₄.heap.cells = m₃.heap.cells ∧
        n₄.heap.get a = none := by
  obtain ⟨m₁, -, hg⟩ := reach_good h
  obtain ⟨a, hf, hr, hrc, n₄, hdel, -, -, hcells, hdead⟩ :=
    insert_fresh_shared hg hnone hins
  exact ⟨a, hf, hr, hrc, n₄, hdel, hcells, hdead⟩

/-- Witness for C9: inserting 5 into the empty manager shares cell 0 with
count 2, and deleting 5 frees it. -/
theorem C9_fresh_insert_shared_cell_witness :
    ∃ a, (⟨⟨1⟩, [(⟨0⟩, 0)], [(0, ⟨0⟩)], ⟨[(0, 5, 2)], 1⟩⟩ :
        IDManager3 Nat).fwdAddr ⟨0⟩ = some a ∧
      (⟨⟨1⟩, [(⟨0⟩, 0)], [(0, ⟨0⟩)], ⟨[(0, 5, 2)], 1⟩⟩ :
        IDManager3 Nat).revAddr 5 = some a ∧
      (⟨⟨1⟩, [(⟨0⟩, 0)], [(0, ⟨0⟩)], ⟨[(0, 5, 2)], 1⟩⟩ :
        IDManager3 Nat).heap.rc a = some 2 ∧
      ∃ n₄, (⟨⟨1⟩, [(⟨0⟩, 0)], [(0, ⟨0⟩)], ⟨[(0, 5, 2)], 1⟩⟩ :
          IDManager3 Nat).delete 5 = (true, n₄, []) ∧
        n₄.heap.cells = [] ∧ n₄.heap.get a = none :=
  @C9_fresh_insert_shared_cell Nat instDecidableEqNat [] [] (IDManager3.new Nat) rfl
    5 ⟨0⟩ ⟨⟨1⟩, [(⟨0⟩, 0)], [(0, ⟨0⟩)], ⟨[(0, 5, 2)], 1⟩⟩ rfl rfl

/-- C10: `IDManager1` and `IDManager3` are observationally equivalent: on
every operation sequence from the fresh managers, either both abort on
counter overflow, or both produce the identical output list — the same
IDs, the same Option results, the same booleans and diagnostics. -/
theorem C10_observational_equivalence (ops : List (Op T)) :
    ((IDManager1.new T).run ops = none ∧ (IDManager3.new T).run ops = none) ∨
    (∃ outs n₁ n₃, (IDManager1.new T).run ops = some (outs, n₁) ∧
      (IDManager3.new T).run ops = some (outs, n₃)) := by
  rcases run_agree good_new ops with ⟨h1, h3⟩ | ⟨outs, n₁, n₃, h1, h3, -⟩
  · exact Or.inl ⟨h1, h3⟩
  · exact Or.inr ⟨outs, n₁, n₃, h1, h3⟩

end Claims

end Lecture8
